import Mathlib

/-! # Command line handling of dmidecode (`dmiopt.c`)

A shallow embedding of `parse_opt_type`, `parse_opt_string` and
`parse_command_line`, with the properties of the option parser proved about it.

Conventions of the embedding:

* a C string is the list of its bytes before the terminating NUL (`CStr`);
* the selector `u8 *p` is a list of bytes, `p[i]=1` is `List.set`;
* the global `struct opt opt` is passed and returned explicitly;
* what the functions write to `stderr` is returned as the list of lines written;
* the C library functions `strcasecmp`, `strtoul` and `getopt_long` are not part of
  `dmiopt.c`: the first two are modelled after ISO C / POSIX in the "C" locale, and the
  successive return values of `getopt_long` are the input of `parse_command_line`.
-/

namespace Dmiopt

/-! ## C strings and the C library -/

/-- A C string: its bytes before the terminating NUL. -/
abbrev CStr := List Nat

/-- The bytes of an ASCII string literal. -/
def cstr (s : String) : CStr := s.toList.map Char.toNat

/-- The `tolower` of the "C" locale: only `A`..`Z` are mapped. -/
def tolower (c : Nat) : Nat := if 65 ≤ c ∧ c ≤ 90 then c + 32 else c

/-- The `strcasecmp` of POSIX, which fixes the sign of the result only: negative, zero or
positive as the first string, bytes compared after `tolower`, is less than, equal to or
greater than the second. -/
def strcasecmp : CStr → CStr → Int
  | [], [] => 0
  | [], _ :: _ => -1
  | _ :: _, [] => 1
  | a :: as, b :: bs =>
    if tolower a = tolower b then strcasecmp as bs
    else if tolower a < tolower b then -1 else 1

/-- The `isspace` of the "C" locale: space, and `\t \n \v \f \r`. -/
def isspace (c : Nat) : Bool := c = 32 || (9 ≤ c && c ≤ 13)

/-- The value of a byte as a digit: `0`..`9`, then the letters of either case from ten. -/
def digit_value (c : Nat) : Option Nat :=
  if 48 ≤ c ∧ c ≤ 57 then some (c - 48)
  else if 97 ≤ c ∧ c ≤ 122 then some (c - 97 + 10)
  else if 65 ≤ c ∧ c ≤ 90 then some (c - 65 + 10)
  else none

/-- Whether a byte is a digit of the given base. -/
def is_digit (base : Nat) (c : Nat) : Bool :=
  match digit_value c with
  | some d => d < base
  | none => false

/-- The largest `unsigned long` (LP64). -/
def ULONG_MAX : Nat := 2 ^ 64 - 1

/-- Whether the string starts with `0x` or `0X` followed by a hexadecimal digit. -/
def has_hex_mark : CStr → Bool
  | 48 :: x :: d :: _ => (x = 120 || x = 88) && is_digit 16 d
  | _ => false

/-- The string after an optional sign `+` or `-`. -/
def skip_sign (s : CStr) : CStr :=
  if s.head? = some 45 ∨ s.head? = some 43 then s.tail else s

/-- The base `strtoul` converts in: with base 0, 16 after a `0x`/`0X` mark, 8 after a
leading `0`, and 10 otherwise. -/
def number_base (base : Nat) (s : CStr) : Nat :=
  if base = 0 then (if has_hex_mark s then 16 else if s.head? = some 48 then 8 else 10)
  else base

/-- The string after the `0x`/`0X` mark of a hexadecimal number. -/
def skip_hex_mark (b : Nat) (s : CStr) : CStr :=
  if b = 16 ∧ has_hex_mark s then s.drop 2 else s

/-- The number a sequence of digits of base `b` writes. -/
def digits_value (b : Nat) (digits : CStr) : Nat :=
  digits.foldl (fun acc c => acc * b + (digit_value c).getD 0) 0

/-- The `unsigned long` returned for the digits' value `v`: `ULONG_MAX` when `v` does not
fit, and otherwise `v`, negated in `unsigned long` after a minus sign. -/
def to_ulong (neg : Bool) (v : Nat) : Nat :=
  if v > ULONG_MAX then ULONG_MAX
  else if neg then (ULONG_MAX + 1 - v) % (ULONG_MAX + 1)
  else v

/-- The `strtoul` of ISO C: `strtoul nptr base` is the pair of the value returned and the
string `*endptr` is left pointing to. White space is skipped, a sign is accepted, base 0
reads a `0x`/`0X` mark as hexadecimal, a leading `0` as octal and anything else as decimal;
with no digit there is no conversion (value 0, `endptr = nptr`); a value that does not fit
gives `ULONG_MAX`, and a minus sign negates the value in `unsigned long`. -/
def strtoul (nptr : CStr) (base : Nat) : Nat × CStr :=
  if base = 1 ∨ 36 < base then (0, nptr) else
  let s := nptr.dropWhile isspace
  let neg : Bool := s.head? = some 45
  let b := number_base base (skip_sign s)
  let t := skip_hex_mark b (skip_sign s)
  if t.takeWhile (is_digit b) = [] then (0, nptr)
  else (to_ulong neg (digits_value b (t.takeWhile (is_digit b))), t.dropWhile (is_digit b))

/-- The text `printf` writes for `%lu`. -/
def fmt_lu (v : Nat) : CStr := (Nat.toDigits 10 v).map Char.toNat

/-! ## Handling of option `--type` -/

/-- The selector `u8 *p`: one byte per structure type code. -/
abbrev Selector := List Nat

/-- The `struct type_keyword`: a keyword and its list of type codes, ended by 255. -/
structure type_keyword where
  keyword : CStr
  type : List Nat
  deriving DecidableEq, Repr

def opt_type_bios : List Nat := [0, 13, 255]
def opt_type_system : List Nat := [1, 12, 15, 23, 32, 255]
def opt_type_baseboard : List Nat := [2, 10, 255]
def opt_type_chassis : List Nat := [3, 255]
def opt_type_processor : List Nat := [4, 255]
def opt_type_memory : List Nat := [5, 6, 16, 17, 255]
def opt_type_cache : List Nat := [7, 255]
def opt_type_connector : List Nat := [8, 255]
def opt_type_slot : List Nat := [9, 255]

def opt_type_keyword : List type_keyword :=
  [ ⟨cstr "bios", opt_type_bios⟩,
    ⟨cstr "system", opt_type_system⟩,
    ⟨cstr "baseboard", opt_type_baseboard⟩,
    ⟨cstr "chassis", opt_type_chassis⟩,
    ⟨cstr "processor", opt_type_processor⟩,
    ⟨cstr "memory", opt_type_memory⟩,
    ⟨cstr "cache", opt_type_cache⟩,
    ⟨cstr "connector", opt_type_connector⟩,
    ⟨cstr "slot", opt_type_slot⟩ ]

/-- The lines `print_opt_type_list` writes to `stderr`. -/
def print_opt_type_list : List CStr :=
  cstr "Valid type keywords are:" :: opt_type_keyword.map (fun k => cstr "  " ++ k.keyword)

/-- The loop `while(type[j]!=255) p[type[j++]]=1;` over one keyword's code list. -/
def set_types : List Nat → Selector → Selector
  | [], p => p
  | c :: cs, p => if c ≠ 255 then set_types cs (p.set c 1) else p

/-- The loop `while(*arg!='\0')` of `parse_opt_type` (the numeric path), on the selector
`p` and what is left of `arg`. The result is the pointer returned (`none` for NULL, after
`free(p)`) and the lines written to `stderr`. Every round consumes at least one byte of
`arg`, which is why the loop terminates. -/
def parse_numbers (p : Selector) (arg : CStr) : Option Selector × List CStr :=
  if arg = [] then (some p, [])
  else
    let val := (strtoul arg 0).1
    let next := (strtoul arg 0).2
    if _h : next = arg then
      (none, (cstr "Invalid type keyword: " ++ arg) :: print_opt_type_list)
    else if val > 0xff then
      (none, [cstr "Invalid type number: " ++ fmt_lu val])
    else
      parse_numbers (p.set val 1) (next.dropWhile (fun c => c = 44 || c = 32))
termination_by arg.length
decreasing_by
  have hlt : (strtoul arg 0).2.length < arg.length := by
    have h1 : (strtoul arg 0).2 ≠ arg := _h
    unfold strtoul at h1 ⊢
    rw [if_neg (by omega)] at h1 ⊢
    by_cases hd : (skip_hex_mark (number_base 0 (skip_sign (arg.dropWhile isspace)))
        (skip_sign (arg.dropWhile isspace))).takeWhile
          (is_digit (number_base 0 (skip_sign (arg.dropWhile isspace)))) = []
    · simp only [hd, if_true] at h1
      exact absurd rfl h1
    · simp only [hd, if_false]
      have h2 := congrArg List.length (List.takeWhile_append_dropWhile
        (is_digit (number_base 0 (skip_sign (arg.dropWhile isspace))))
        (skip_hex_mark (number_base 0 (skip_sign (arg.dropWhile isspace)))
          (skip_sign (arg.dropWhile isspace))))
      rw [List.length_append] at h2
      have h3 := List.length_pos.mpr hd
      have h4 : (skip_hex_mark (number_base 0 (skip_sign (arg.dropWhile isspace)))
          (skip_sign (arg.dropWhile isspace))).length ≤ (skip_sign (arg.dropWhile isspace)).length := by
        unfold skip_hex_mark
        split
        · rw [List.length_drop]; omega
        · exact le_refl _
      have h5 : (skip_sign (arg.dropWhile isspace)).length ≤ (arg.dropWhile isspace).length := by
        unfold skip_sign
        split
        · rw [List.length_tail]; omega
        · exact le_refl _
      have h6 := (List.dropWhile_sublist isspace (l := arg)).length_le
      omega
  have := (List.dropWhile_sublist (fun c => decide (c = 44) || decide (c = 32))
    (l := (strtoul arg 0).2)).length_le
  omega

/-- The start of `parse_opt_type`: the selector `p`, or when `p` is NULL the zeroed
selector of 256 bytes that `calloc` returns (`calloc` is taken to succeed). -/
def selector_or_fresh (p : Option Selector) : Selector :=
  match p with
  | none => List.replicate 256 0
  | some p => p

/-- The function `parse_opt_type(p, arg)`, `p = none` being the NULL pointer. The result
is the pointer returned (`none` for NULL) and the lines written to `stderr`. -/
def parse_opt_type (p : Option Selector) (arg : CStr) : Option Selector × List CStr :=
  match opt_type_keyword.find? (fun k => strcasecmp arg k.keyword = 0) with
  | some k => (some (set_types k.type (selector_or_fresh p)), [])
  | none => parse_numbers (selector_or_fresh p) arg

/-! ## Handling of option `--string` -/

/-- The functions of `dmidecode.c` that the string keywords refer to. -/
inductive hook where
  | dmi_system_uuid
  | dmi_chassis_type
  | dmi_processor_family
  | dmi_processor_frequency
  deriving DecidableEq, Repr

/-- Modelled from the spec: `struct string_keyword` is declared in dmiopt.h, which is not
among the sources. Its fields, in the order of the initialisers of `opt_string_keyword`, are
those of the spec's StringKeyword: keyword, structure type, field offset, optional value
formatter and optional scalar extractor (`none` for NULL). -/
structure string_keyword where
  keyword : CStr
  type : Nat
  offset : Nat
  lookup : Option hook
  print : Option hook
  deriving DecidableEq, Repr

def opt_string_keyword : List string_keyword :=
  [ ⟨cstr "bios-vendor", 0, 0x04, none, none⟩,
    ⟨cstr "bios-version", 0, 0x05, none, none⟩,
    ⟨cstr "bios-release-date", 0, 0x08, none, none⟩,
    ⟨cstr "system-manufacturer", 1, 0x04, none, none⟩,
    ⟨cstr "system-product-name", 1, 0x05, none, none⟩,
    ⟨cstr "system-version", 1, 0x06, none, none⟩,
    ⟨cstr "system-serial-number", 1, 0x07, none, none⟩,
    ⟨cstr "system-uuid", 1, 0x08, none, some hook.dmi_system_uuid⟩,
    ⟨cstr "baseboard-manufacturer", 2, 0x04, none, none⟩,
    ⟨cstr "baseboard-product-name", 2, 0x05, none, none⟩,
    ⟨cstr "baseboard-version", 2, 0x06, none, none⟩,
    ⟨cstr "baseboard-serial-number", 2, 0x07, none, none⟩,
    ⟨cstr "baseboard-asset-tag", 2, 0x08, none, none⟩,
    ⟨cstr "chassis-manufacturer", 3, 0x04, none, none⟩,
    ⟨cstr "chassis-type", 3, 0x05, some hook.dmi_chassis_type, none⟩,
    ⟨cstr "chassis-version", 3, 0x06, none, none⟩,
    ⟨cstr "chassis-serial-number", 3, 0x07, none, none⟩,
    ⟨cstr "chassis-asset-tag", 3, 0x08, none, none⟩,
    ⟨cstr "processor-family", 4, 0x06, some hook.dmi_processor_family, none⟩,
    ⟨cstr "processor-manufacturer", 4, 0x07, none, none⟩,
    ⟨cstr "processor-version", 4, 0x10, none, none⟩,
    ⟨cstr "processor-frequency", 4, 0x16, none, some hook.dmi_processor_frequency⟩ ]

/-- The lines `print_opt_string_list` writes to `stderr`. -/
def print_opt_string_list : List CStr :=
  cstr "Valid string keywords are:" ::
    opt_string_keyword.map (fun k => cstr "  " ++ k.keyword)

/-- Modelled from the spec: the `FLAG_*` masks of dmiopt.h are not among the sources. The
flags are a set, one member for each mask `dmiopt.c` uses: `opt.flags|=FLAG_X` sets the
member and `opt.flags & FLAG_X` tests it. -/
structure flag_set where
  version : Bool
  help : Bool
  dump : Bool
  quiet : Bool
  dump_bin : Bool
  from_dump : Bool
  deriving DecidableEq, Repr

/-- The global `struct opt opt`. The structure is declared in dmiopt.h, which is not among
the sources: its fields here are the five that `dmiopt.c` reads and writes, a pointer
being `none` when it is NULL. -/
structure opt where
  devmem : Option CStr
  flags : flag_set
  type : Option Selector
  string : Option string_keyword
  dumpfile : Option CStr
  deriving DecidableEq, Repr

/-- The global `opt` at program start: static storage, all zero. -/
def opt_zero : opt :=
  { devmem := none, flags := ⟨false, false, false, false, false, false⟩,
    type := none, string := none, dumpfile := none }

/-- What a call leaves behind: its return value, the lines written to `stderr`, and the
global `opt`. -/
structure outcome where
  ret : Int
  err : List CStr
  opt : opt
  deriving DecidableEq, Repr

/-- The function `parse_opt_string(arg)` on the global `o`. -/
def parse_opt_string (o : opt) (arg : CStr) : outcome :=
  if o.string ≠ none then
    ⟨-1, [cstr "Only one string can be specified"], o⟩
  else
    match opt_string_keyword.find? (fun k => strcasecmp arg k.keyword = 0) with
    | some k => ⟨0, [], { o with string := some k }⟩
    | none => ⟨-1, (cstr "Invalid string keyword: " ++ arg) :: print_opt_string_list, o⟩

/-! ## Command line options handling -/

/-- One return of `getopt_long` other than -1: the option character with `optarg` where
the option takes an argument, and `'?'` with `optopt`. `dmiopt.c` leaves `opterr` as it is,
so before it returns `'?'` for an unknown option or a missing argument `getopt_long` has
written a line of its own to `stderr`: the line is the C library's text, and the return
carries it as `diagnostic`. -/
inductive getopt where
  | B (optarg : CStr)
  | F (optarg : CStr)
  | d (optarg : CStr)
  | h
  | q
  | s (optarg : CStr)
  | t (optarg : CStr)
  | u
  | V
  | unknown (optopt : Nat) (diagnostic : CStr)
  deriving DecidableEq, Repr

/-- The lines `parse_command_line` writes for `'?'`, by `switch(optopt)`. -/
def missing_argument (optopt : Nat) : List CStr :=
  if optopt = 115 then cstr "String keyword expected" :: print_opt_string_list
  else if optopt = 116 then cstr "Type number or keyword expected" :: print_opt_type_list
  else []

/-- The loop `while((option=getopt_long(...))!=-1) switch(option)` of
`parse_command_line`: `Except.error` is a `return -1` out of the loop, `Except.ok` the
global `opt` once `getopt_long` has returned -1. -/
def option_loop (o : opt) : List getopt → Except outcome opt
  | [] => .ok o
  | .B optarg :: rest =>
    option_loop { o with flags := { o.flags with dump_bin := true }, dumpfile := some optarg } rest
  | .F optarg :: rest =>
    option_loop { o with flags := { o.flags with from_dump := true }, dumpfile := some optarg } rest
  | .d optarg :: rest => option_loop { o with devmem := some optarg } rest
  | .h :: rest => option_loop { o with flags := { o.flags with help := true } } rest
  | .q :: rest => option_loop { o with flags := { o.flags with quiet := true } } rest
  | .s optarg :: rest =>
    let r := parse_opt_string o optarg
    if r.ret < 0 then .error ⟨-1, r.err, r.opt⟩
    else option_loop { r.opt with flags := { r.opt.flags with quiet := true } } rest
  | .t optarg :: rest =>
    let r := parse_opt_type o.type optarg
    if r.1 = none then .error ⟨-1, r.2, { o with type := r.1 }⟩
    else option_loop { o with type := r.1 } rest
  | .u :: rest => option_loop { o with flags := { o.flags with dump := true } } rest
  | .V :: rest => option_loop { o with flags := { o.flags with version := true } } rest
  | .unknown optopt diagnostic :: _ =>
    .error ⟨-1, diagnostic :: missing_argument optopt, o⟩

/-- The checks of `parse_command_line` after the loop, in the order of the source. -/
def exclusion_checks (o : opt) : outcome :=
  if o.type ≠ none ∧ o.string ≠ none then
    ⟨-1, [cstr "Options --string and --type are mutually exclusive"], o⟩
  else if o.flags.dump = true ∧ o.string ≠ none then
    ⟨-1, [cstr "Options --string and --dump are mutually exclusive"], o⟩
  else if o.flags.dump = true ∧ o.flags.quiet = true then
    ⟨-1, [cstr "Options --quiet and --dump are mutually exclusive"], o⟩
  else if o.flags.dump_bin = true ∧ (o.type ≠ none ∨ o.string ≠ none) then
    ⟨-1, [cstr "Options --dump-bin, --string and --type are mutually exclusive"], o⟩
  else if o.flags.from_dump = true ∧ o.flags.dump_bin = true then
    ⟨-1, [cstr "Options --from-dump and --dump-bin are mutually exclusive"], o⟩
  else ⟨0, [], o⟩

/-- The function `parse_command_line(argc, argv)` on the global `o`, `args` being what
`getopt_long` returns for `argv` call after call. -/
def parse_command_line (o : opt) (args : List getopt) : outcome :=
  match option_loop o args with
  | .error r => r
  | .ok o1 => exclusion_checks o1

/-! ## Vocabulary of the specification -/

/-- Code `i` is included by the selector: its entry is not zero. -/
def included (sel : Selector) (i : Nat) : Prop := sel.getD i 0 ≠ 0

instance (sel : Selector) (i : Nat) : Decidable (included sel i) := by
  unfold included; infer_instance

/-- Two bytes that are the same when ASCII letter case is ignored: equal, or an upper case
letter `A`..`Z` and its lower case letter, 32 further. -/
def same_letter (a b : Nat) : Bool :=
  a = b || (65 ≤ a && a ≤ 90 && b = a + 32) || (65 ≤ b && b ≤ 90 && a = b + 32)

/-- Two strings that are the same when ASCII letter case is ignored. -/
def eq_ignoring_case : CStr → CStr → Bool
  | [], [] => true
  | a :: s, b :: t => same_letter a b && eq_ignoring_case s t
  | _, _ => false

/-- The number a string of decimal digits writes, read from the left. -/
def decimal_value (t : CStr) : Nat := t.foldl (fun acc c => 10 * acc + (c - 48)) 0

/-- The token `t` writes `n` in decimal: digits `0`..`9` only, at least one, and no
leading zero (so zero is written `0`). -/
def writes_decimal (t : CStr) (n : Nat) : Bool :=
  t ≠ [] && t.all (fun c => 48 ≤ c && c ≤ 57) && (t.head? ≠ some 48 || t = [48]) &&
    decimal_value t = n

/-- Whether a byte is a hexadecimal digit, the letters in either case. -/
def is_hex_digit (c : Nat) : Bool :=
  (48 ≤ c && c ≤ 57) || (97 ≤ c && c ≤ 102) || (65 ≤ c && c ≤ 70)

/-- The value of a hexadecimal digit. -/
def hex_digit_value (c : Nat) : Nat :=
  if c ≤ 57 then c - 48 else if 97 ≤ c then c - 87 else c - 55

/-- The number a string of hexadecimal digits writes, read from the left. -/
def hex_value (t : CStr) : Nat := t.foldl (fun acc c => 16 * acc + hex_digit_value c) 0

/-- The token `t` writes `n` in hexadecimal: `0x` or `0X`, then at least one hexadecimal
digit, the letters in either case. -/
def writes_hex (t : CStr) (n : Nat) : Bool :=
  match t with
  | 48 :: x :: ds =>
    (x = 120 || x = 88) && ds ≠ [] && ds.all is_hex_digit && hex_value ds = n
  | _ => false

/-- A leading number can be parsed from the token: after optional white space and an
optional sign, it goes on with a decimal digit. -/
def has_leading_number (t : CStr) : Bool :=
  match skip_sign (t.dropWhile isspace) with
  | c :: _ => 48 ≤ c && c ≤ 57
  | [] => false

/-- The token is one of the category keywords, letter case ignored. -/
def is_category_keyword (t : CStr) : Bool :=
  opt_type_keyword.any (fun k => eq_ignoring_case t k.keyword)

/-- Invariant `k` of the data model, `k` from 1 to 5, is violated by the option state:
(1) string and type both set, (2) dump-raw and string, (3) dump-raw and quiet,
(4) dump-bin with type or string, (5) from-dump and dump-bin. -/
def violates (o : opt) : Nat → Bool
  | 1 => o.string.isSome && o.type.isSome
  | 2 => o.flags.dump && o.string.isSome
  | 3 => o.flags.dump && o.flags.quiet
  | 4 => o.flags.dump_bin && (o.type.isSome || o.string.isSome)
  | 5 => o.flags.from_dump && o.flags.dump_bin
  | _ => false

/-- The line written to `stderr` for the violation of invariant `k`. -/
def exclusion_message : Nat → CStr
  | 1 => cstr "Options --string and --type are mutually exclusive"
  | 2 => cstr "Options --string and --dump are mutually exclusive"
  | 3 => cstr "Options --quiet and --dump are mutually exclusive"
  | 4 => cstr "Options --dump-bin, --string and --type are mutually exclusive"
  | 5 => cstr "Options --from-dump and --dump-bin are mutually exclusive"
  | _ => []

/-- The token is the keyword of some entry of the string registry, letter case ignored. -/
def is_string_keyword (t : CStr) : Bool :=
  opt_string_keyword.any (fun k => eq_ignoring_case t k.keyword)

/-- The part of the option state that the option loop and the checks after it read: the
type selector, the selected string, and the dump, quiet, dump-bin and from-dump flags. -/
def decisive (o : opt) : Option Selector × Option string_keyword × Bool × Bool × Bool × Bool :=
  (o.type, o.string, o.flags.dump, o.flags.quiet, o.flags.dump_bin, o.flags.from_dump)

/-- The option is one of help, version and device path. -/
def is_plain_option : getopt → Bool
  | .h => true
  | .V => true
  | .d _ => true
  | _ => false

/-- Whether a byte is an octal digit. -/
def is_octal_digit (c : Nat) : Bool := 48 ≤ c && c ≤ 55

/-- The number a string of octal digits writes, read from the left. -/
def octal_value (t : CStr) : Nat := t.foldl (fun acc c => 8 * acc + (c - 48)) 0

/-- The token `t` writes `n` in octal: a `0`, then octal digits. -/
def writes_octal (t : CStr) (n : Nat) : Bool :=
  match t with
  | 48 :: ds => ds.all is_octal_digit && octal_value ds = n
  | _ => false

/-- The token `t` writes `n` as a decimal, `0x` hexadecimal or `0` octal literal. -/
def writes_number (t : CStr) (n : Nat) : Bool :=
  writes_decimal t n || writes_hex t n || writes_octal t n

/-- The separators of the numeric path: comma and space. -/
def is_separator (c : Nat) : Bool := c = 44 || c = 32

/-- A list of numbers with, for each, the literal that writes it and the separators that
follow the literal: at least one separator after every literal but the last. -/
def is_number_list : List (Nat × CStr × CStr) → Bool
  | [] => false
  | (n, lit, seps) :: rest =>
    writes_number lit n && seps.all is_separator &&
      (rest = [] || (seps ≠ [] && is_number_list rest))

/-- The token a list of literals and separators forms. -/
def number_list_token : List (Nat × CStr × CStr) → CStr
  | [] => []
  | (_, lit, seps) :: rest => lit ++ seps ++ number_list_token rest

/-- Whether a byte is an ASCII letter. -/
def is_letter (c : Nat) : Bool := (65 ≤ c && c ≤ 90) || (97 ≤ c && c ≤ 122)

/-- The letters `w` extend the decimal literal `lit` to another literal: the literal is
`0` and the letters start with `x` or `X` and a hexadecimal digit. -/
def extends_literal (lit w : CStr) : Bool :=
  lit = [48] &&
    match w with
    | x :: d :: _ => (x = 120 || x = 88) && is_hex_digit d
    | _ => false

/-- A run of valid sub-tokens: numbers up to 255 with, for each, the literal that writes
it and the separators, at least one, that follow the literal. -/
def is_number_run : List (Nat × CStr × CStr) → Bool
  | [] => true
  | (n, lit, seps) :: rest =>
    writes_number lit n && decide (n ≤ 255) && seps ≠ [] && seps.all is_separator &&
      is_number_run rest

/-- The categories and their fixed lists of type codes, as the specification gives them. -/
def category_codes : List (String × List Nat) :=
  [ ("bios", [0, 13]), ("system", [1, 12, 15, 23, 32]), ("baseboard", [2, 10]),
    ("chassis", [3]), ("processor", [4]), ("memory", [5, 6, 16, 17]), ("cache", [7]),
    ("connector", [8]), ("slot", [9]) ]

/-! ## Lemmas on the C library model -/

theorem tolower_tolower (c : Nat) : tolower (tolower c) = tolower c := by
  unfold tolower; split_ifs <;> omega

theorem strcasecmp_eq_zero_iff (s t : CStr) :
    strcasecmp s t = 0 ↔ s.map tolower = t.map tolower := by
  induction s generalizing t with
  | nil => cases t <;> simp [strcasecmp]
  | cons a s ih =>
    cases t with
    | nil => simp [strcasecmp]
    | cons b t =>
      simp only [strcasecmp, List.map_cons, List.cons.injEq]
      split_ifs with h1 h2
      · simp [h1, ih]
      · simp [h1]
      · simp [h1]

theorem same_letter_iff (a b : Nat) : same_letter a b = true ↔ tolower a = tolower b := by
  unfold same_letter tolower
  simp only [Bool.or_eq_true, Bool.and_eq_true, decide_eq_true_eq]
  split_ifs <;> omega

theorem eq_ignoring_case_iff (s t : CStr) :
    eq_ignoring_case s t = true ↔ s.map tolower = t.map tolower := by
  induction s generalizing t with
  | nil => cases t <;> simp [eq_ignoring_case]
  | cons a s ih =>
    cases t with
    | nil => simp [eq_ignoring_case]
    | cons b t => simp [eq_ignoring_case, same_letter_iff, ih]

/-- The comparison with a keyword only sees its first argument after `tolower`. -/
theorem strcasecmp_congr (t u kw : CStr) (h : t.map tolower = u.map tolower) :
    strcasecmp t kw = 0 ↔ strcasecmp u kw = 0 := by
  rw [strcasecmp_eq_zero_iff, strcasecmp_eq_zero_iff, h]

/-! ## Lemmas on selectors -/

theorem included_set (p : Selector) (j i : Nat) :
    included (p.set j 1) i ↔ (i = j ∧ j < p.length) ∨ included p i := by
  unfold included
  rw [List.getD_eq_getElem?_getD, List.getD_eq_getElem?_getD, List.getElem?_set]
  by_cases hji : j = i
  · subst hji
    by_cases hj : j < p.length
    · simp [hj]
    · simp [hj, List.getElem?_eq_none (not_lt.mp hj)]
  · simp only [hji, if_false]
    constructor
    · intro h; exact Or.inr h
    · rintro (⟨h, _⟩ | h)
      · exact absurd h.symm hji
      · exact h

theorem not_included_replicate (n i : Nat) : ¬ included (List.replicate n 0) i := by
  unfold included
  rw [List.getD_eq_getElem?_getD, List.getElem?_replicate]
  split_ifs <;> simp

theorem set_types_length (cs : List Nat) (p : Selector) :
    (set_types cs p).length = p.length := by
  induction cs generalizing p with
  | nil => rfl
  | cons c cs ih =>
    unfold set_types
    split_ifs
    · rw [ih, List.length_set]
    · rfl

theorem included_set_types (cs : List Nat) (p : Selector)
    (h : ∀ c ∈ cs.takeWhile (fun c => c ≠ 255), c < p.length) (i : Nat) :
    included (set_types cs p) i ↔ i ∈ cs.takeWhile (fun c => c ≠ 255) ∨ included p i := by
  induction cs generalizing p with
  | nil => simp [set_types]
  | cons c cs ih =>
    unfold set_types
    by_cases hc : c = 255
    · simp [hc]
    · have htw : (c :: cs).takeWhile (fun c => decide (c ≠ 255)) =
          c :: cs.takeWhile (fun c => decide (c ≠ 255)) := by
        simp [List.takeWhile_cons, hc]
      rw [htw] at h ⊢
      rw [if_pos hc, ih, included_set]
      · have hlt : c < p.length := h c (List.mem_cons_self _ _)
        simp only [List.mem_cons]
        tauto
      · intro d hd
        rw [List.length_set]
        exact h d (List.mem_cons_of_mem _ hd)

/-! ## C1: the category keywords -/

/-- The keyword search of `parse_opt_type` only sees `arg` after `tolower`. -/
theorem find_type_keyword_congr (t u : CStr) (h : t.map tolower = u.map tolower) :
    opt_type_keyword.find? (fun k => decide (strcasecmp t k.keyword = 0)) =
      opt_type_keyword.find? (fun k => decide (strcasecmp u k.keyword = 0)) := by
  congr 1
  funext k
  exact decide_eq_decide.mpr (strcasecmp_congr t u k.keyword h)

/-- The keyword path: a token that is `u` up to letter case, `u` being found in the table. -/
theorem parse_opt_type_keyword (p : Option Selector) (t u : CStr) (k : type_keyword)
    (htu : t.map tolower = u.map tolower)
    (hfind : opt_type_keyword.find? (fun k => decide (strcasecmp u k.keyword = 0)) = some k) :
    parse_opt_type p t = (some (set_types k.type (selector_or_fresh p)), []) := by
  rw [← find_type_keyword_congr t u htu] at hfind
  simp only [parse_opt_type, hfind]

/-- C1: for each of the nine category keywords, written in any mix of upper and lower
case, `parse_opt_type` with no existing selector succeeds, writes nothing to `stderr`, and
returns a selector of 256 entries whose included codes are exactly the category's list. -/
theorem parse_opt_type_category (kw : String) (codes : List Nat)
    (hk : (kw, codes) ∈ category_codes) (t : CStr)
    (ht : eq_ignoring_case t (cstr kw) = true) :
    ∃ sel, parse_opt_type none t = (some sel, []) ∧ sel.length = 256 ∧
      ∀ i, included sel i ↔ i ∈ codes := by
  rw [eq_ignoring_case_iff] at ht
  have key : ∀ k : type_keyword,
      opt_type_keyword.find? (fun k => decide (strcasecmp (cstr kw) k.keyword = 0)) = some k →
      (∀ c ∈ k.type.takeWhile (fun c => c ≠ 255), c < 256) →
      k.type.takeWhile (fun c => c ≠ 255) = codes →
      ∃ sel, parse_opt_type none t = (some sel, []) ∧ sel.length = 256 ∧
        ∀ i, included sel i ↔ i ∈ codes := by
    intro k hfind hlt hcodes
    have hlen : (List.replicate 256 (0 : Nat)).length = 256 := List.length_replicate _ _
    refine ⟨set_types k.type (List.replicate 256 0), ?_, ?_, ?_⟩
    · exact parse_opt_type_keyword none t (cstr kw) k ht hfind
    · rw [set_types_length, hlen]
    · intro i
      rw [included_set_types _ _ (by rw [hlen]; exact hlt), hcodes]
      exact or_iff_left (not_included_replicate 256 i)
  simp only [category_codes, List.mem_cons, Prod.mk.injEq, List.mem_nil_iff, or_false] at hk
  rcases hk with h | h | h | h | h | h | h | h | h <;> obtain ⟨rfl, rfl⟩ := h
  · exact key ⟨cstr "bios", opt_type_bios⟩ (by decide) (by decide) (by decide)
  · exact key ⟨cstr "system", opt_type_system⟩ (by decide) (by decide) (by decide)
  · exact key ⟨cstr "baseboard", opt_type_baseboard⟩ (by decide) (by decide) (by decide)
  · exact key ⟨cstr "chassis", opt_type_chassis⟩ (by decide) (by decide) (by decide)
  · exact key ⟨cstr "processor", opt_type_processor⟩ (by decide) (by decide) (by decide)
  · exact key ⟨cstr "memory", opt_type_memory⟩ (by decide) (by decide) (by decide)
  · exact key ⟨cstr "cache", opt_type_cache⟩ (by decide) (by decide) (by decide)
  · exact key ⟨cstr "connector", opt_type_connector⟩ (by decide) (by decide) (by decide)
  · exact key ⟨cstr "slot", opt_type_slot⟩ (by decide) (by decide) (by decide)

theorem parse_opt_type_category_witness :
    ("memory", [5, 6, 16, 17]) ∈ category_codes ∧
    eq_ignoring_case (cstr "MeMoRy") (cstr "memory") = true ∧
    ∃ sel, parse_opt_type none (cstr "MeMoRy") = (some sel, []) ∧ sel.length = 256 ∧
      ∀ i, included sel i ↔ i ∈ [5, 6, 16, 17] :=
  ⟨by decide, by decide,
    parse_opt_type_category "memory" [5, 6, 16, 17] (by decide) (cstr "MeMoRy") (by decide)⟩

/-! ## Lemmas on `strtoul` -/

theorem takeWhile_eq_self_of_all (f : Nat → Bool) (l : CStr) (h : ∀ c ∈ l, f c = true) :
    l.takeWhile f = l := by
  induction l with
  | nil => rfl
  | cons a l ih =>
    rw [List.takeWhile_cons, h a (List.mem_cons_self _ _)]
    simp only [if_true]
    rw [ih (fun c hc => h c (List.mem_cons_of_mem _ hc))]

theorem dropWhile_eq_nil_of_all (f : Nat → Bool) (l : CStr) (h : ∀ c ∈ l, f c = true) :
    l.dropWhile f = [] := by
  induction l with
  | nil => rfl
  | cons a l ih =>
    rw [List.dropWhile_cons, h a (List.mem_cons_self _ _)]
    simp only [if_true]
    exact ih (fun c hc => h c (List.mem_cons_of_mem _ hc))

/-- The conversion of a string that is digits of its base from its first byte to its
last: all of it is consumed. -/
theorem strtoul_all_digits (c : Nat) (s : CStr) (b : Nat)
    (hc : isspace c = false) (hminus : c ≠ 45) (hplus : c ≠ 43)
    (hb : number_base 0 (c :: s) = b) (hmark : has_hex_mark (c :: s) = false)
    (hall : ∀ d ∈ c :: s, is_digit b d = true) :
    strtoul (c :: s) 0 = (to_ulong false (digits_value b (c :: s)), []) := by
  have h1 : (c :: s).dropWhile isspace = c :: s := by
    rw [List.dropWhile_cons, hc]; rfl
  have h2 : skip_sign (c :: s) = c :: s := by
    unfold skip_sign
    rw [if_neg]
    simp [hminus, hplus]
  have h3 : skip_hex_mark b (c :: s) = c :: s := by
    unfold skip_hex_mark
    rw [if_neg]
    simp [hmark]
  unfold strtoul
  rw [if_neg (by omega)]
  simp only [h1, h2, hb, h3, takeWhile_eq_self_of_all _ _ hall,
    dropWhile_eq_nil_of_all _ _ hall]
  simp [hminus]

/-- The conversion of `0x` or `0X` followed by hexadecimal digits only. -/
theorem strtoul_hex (x : Nat) (ds : CStr) (hx : x = 120 ∨ x = 88) (hne : ds ≠ [])
    (hall : ∀ d ∈ ds, is_digit 16 d = true) :
    strtoul (48 :: x :: ds) 0 = (to_ulong false (digits_value 16 ds), []) := by
  obtain ⟨d, ds1, rfl⟩ := List.exists_cons_of_ne_nil hne
  have hd : is_digit 16 d = true := hall d (List.mem_cons_self _ _)
  have hm : has_hex_mark (48 :: x :: d :: ds1) = true := by
    unfold has_hex_mark
    rcases hx with rfl | rfl <;> simp [hd]
  have h1 : (48 :: x :: d :: ds1).dropWhile isspace = 48 :: x :: d :: ds1 := by
    rw [List.dropWhile_cons]; rfl
  have h2 : skip_sign (48 :: x :: d :: ds1) = 48 :: x :: d :: ds1 := by
    unfold skip_sign
    rw [if_neg]
    simp
  have hb : number_base 0 (48 :: x :: d :: ds1) = 16 := by
    unfold number_base
    simp [hm]
  have h3 : skip_hex_mark 16 (48 :: x :: d :: ds1) = d :: ds1 := by
    unfold skip_hex_mark
    simp [hm]
  unfold strtoul
  rw [if_neg (by omega)]
  simp only [h1, h2, hb, h3, takeWhile_eq_self_of_all _ _ hall,
    dropWhile_eq_nil_of_all _ _ hall]
  simp

theorem to_ulong_of_le (v : Nat) (h : v ≤ 255) : to_ulong false v = v := by
  unfold to_ulong ULONG_MAX
  rw [if_neg (by omega)]
  simp

theorem to_ulong_gt (v : Nat) (h : 255 < v) : 255 < to_ulong false v := by
  unfold to_ulong ULONG_MAX
  split_ifs
  · norm_num
  · simp at *
  · exact h

theorem foldl_digits_congr (b : Nat) (f : Nat → Nat) (t : CStr)
    (h : ∀ c ∈ t, (digit_value c).getD 0 = f c) (acc : Nat) :
    t.foldl (fun a c => a * b + (digit_value c).getD 0) acc =
      t.foldl (fun a c => b * a + f c) acc := by
  induction t generalizing acc with
  | nil => rfl
  | cons c t ih =>
    rw [List.foldl_cons, List.foldl_cons, h c (List.mem_cons_self _ _), Nat.mul_comm acc b]
    exact ih (fun d hd => h d (List.mem_cons_of_mem _ hd)) _

theorem digits_value_decimal (t : CStr) (h : ∀ c ∈ t, 48 ≤ c ∧ c ≤ 57) :
    digits_value 10 t = decimal_value t := by
  unfold digits_value decimal_value
  apply foldl_digits_congr
  intro c hc
  have := h c hc
  unfold digit_value
  rw [if_pos this]
  rfl

theorem digits_value_hex (t : CStr) (h : ∀ c ∈ t, is_hex_digit c = true) :
    digits_value 16 t = hex_value t := by
  unfold digits_value hex_value
  apply foldl_digits_congr
  intro c hc
  have := h c hc
  unfold is_hex_digit at this
  simp only [Bool.or_eq_true, Bool.and_eq_true, decide_eq_true_eq] at this
  unfold digit_value hex_digit_value
  split_ifs <;> simp only [Option.getD_some, Option.getD_none] <;> omega

theorem is_digit_decimal (c : Nat) (h : 48 ≤ c ∧ c ≤ 57) : is_digit 10 c = true := by
  unfold is_digit digit_value
  rw [if_pos h]
  simp only [decide_eq_true_eq]
  omega

theorem is_digit_hex (c : Nat) (h : is_hex_digit c = true) : is_digit 16 c = true := by
  unfold is_hex_digit at h
  simp only [Bool.or_eq_true, Bool.and_eq_true, decide_eq_true_eq] at h
  unfold is_digit digit_value
  split_ifs <;> first | (simp only [decide_eq_true_eq]; omega) | omega


/-! ## C2 and C3: one number -/

theorem type_keyword_first_letter :
    ∀ k ∈ opt_type_keyword, 97 ≤ (k.keyword.map tolower).head?.getD 0 := by decide

/-- A token that starts with a decimal digit is no category keyword. -/
theorem find_type_keyword_digit (c : Nat) (s : CStr) (h : 48 ≤ c ∧ c ≤ 57) :
    opt_type_keyword.find? (fun k => decide (strcasecmp (c :: s) k.keyword = 0)) = none := by
  rw [List.find?_eq_none]
  intro k hk hz
  have h1 := type_keyword_first_letter k hk
  rw [decide_eq_true_eq, strcasecmp_eq_zero_iff] at hz
  rw [← hz] at h1
  have h2 : tolower c = c := by unfold tolower; rw [if_neg (by omega)]
  simp only [List.map_cons, List.head?_cons, Option.getD_some, h2] at h1
  omega

theorem parse_numbers_nil (p : Selector) : parse_numbers p [] = (some p, []) := by
  rw [parse_numbers]; rfl

/-- The numeric path on a token that `strtoul` consumes whole. -/
theorem parse_numbers_single (p : Selector) (t : CStr) (v : Nat) (ht : t ≠ [])
    (hs : strtoul t 0 = (v, [])) :
    parse_numbers p t =
      if v > 0xff then (none, [cstr "Invalid type number: " ++ fmt_lu v])
      else (some (p.set v 1), []) := by
  rw [parse_numbers]
  simp only [hs, if_neg ht]
  rw [dif_neg (fun h => ht h.symm)]
  split_ifs
  · rfl
  · rw [List.dropWhile_nil, parse_numbers_nil]

/-- What `strtoul` makes of a token that writes `n` in decimal or in hexadecimal. -/
theorem strtoul_writes (t : CStr) (n : Nat)
    (h : writes_decimal t n = true ∨ writes_hex t n = true) :
    strtoul t 0 = (to_ulong false n, []) ∧ ∃ c s, t = c :: s ∧ 48 ≤ c ∧ c ≤ 57 := by
  rcases h with h | h
  · unfold writes_decimal at h
    simp only [Bool.and_eq_true, Bool.or_eq_true, decide_eq_true_eq, List.all_eq_true,
      ne_eq, decide_not, Bool.not_eq_true', decide_eq_false_iff_not] at h
    obtain ⟨⟨⟨hne, hall⟩, hlead⟩, hval⟩ := h
    obtain ⟨c, s, rfl⟩ := List.exists_cons_of_ne_nil hne
    have hc := hall c (List.mem_cons_self _ _)
    refine ⟨?_, c, s, rfl, hc⟩
    rcases hlead with hlead | hlead
    · have hc48 : c ≠ 48 := by simpa using hlead
      have hmark : has_hex_mark (c :: s) = false := by
        unfold has_hex_mark
        split
        · rename_i heq; injection heq with h1 _; exact absurd h1 hc48
        · rfl
      have hb : number_base 0 (c :: s) = 10 := by
        unfold number_base
        simp [hmark, hc48]
      rw [strtoul_all_digits c s 10 (by unfold isspace; simp; omega) (by omega) (by omega)
        hb hmark (fun d hd => is_digit_decimal d (hall d hd)),
        digits_value_decimal _ hall, hval]
    · injection hlead with h1 h2
      subst h1; subst h2
      have : n = 0 := by rw [← hval]; rfl
      subst this
      decide
  · unfold writes_hex at h
    split at h
    · rename_i x ds
      simp only [Bool.and_eq_true, Bool.or_eq_true, decide_eq_true_eq, List.all_eq_true,
        ne_eq, decide_not, Bool.not_eq_true', decide_eq_false_iff_not] at h
      obtain ⟨⟨⟨hx, hne⟩, hall⟩, hval⟩ := h
      refine ⟨?_, 48, x :: ds, rfl, by omega, by omega⟩
      rw [strtoul_hex x ds hx hne (fun d hd => is_digit_hex d (hall d hd)),
        digits_value_hex _ hall, hval]
    · exact absurd h (by simp)

/-- C2: for every `n` from 0 to 255, on the token that writes `n` in decimal without
leading zeros, or in hexadecimal after `0x` or `0X` with the letters in either case,
`parse_opt_type` with no existing selector succeeds and returns a selector of 256 entries
in which `n` is included and no other code is. -/
theorem parse_opt_type_number (n : Nat) (hn : n ≤ 255) (t : CStr)
    (ht : writes_decimal t n = true ∨ writes_hex t n = true) :
    ∃ sel, parse_opt_type none t = (some sel, []) ∧ sel.length = 256 ∧
      ∀ i, included sel i ↔ i = n := by
  obtain ⟨hs, c, s, rfl, hc⟩ := strtoul_writes t n ht
  rw [to_ulong_of_le n hn] at hs
  have hlen : (List.replicate 256 (0 : Nat)).length = 256 := List.length_replicate _ _
  refine ⟨(List.replicate 256 0).set n 1, ?_, ?_, ?_⟩
  · unfold parse_opt_type
    rw [find_type_keyword_digit c s hc]
    simp only [selector_or_fresh]
    rw [parse_numbers_single _ _ n (List.cons_ne_nil _ _) hs, if_neg (by omega)]
  · rw [List.length_set, hlen]
  · intro i
    rw [included_set, hlen]
    constructor
    · rintro (⟨h, _⟩ | h)
      · exact h
      · exact absurd h (not_included_replicate 256 i)
    · intro h
      exact Or.inl ⟨h, by omega⟩

theorem parse_opt_type_number_witness :
    (31 ≤ 255 ∧ (writes_decimal (cstr "0X1f") 31 = true ∨ writes_hex (cstr "0X1f") 31 = true)) ∧
    ∃ sel, parse_opt_type none (cstr "0X1f") = (some sel, []) ∧ sel.length = 256 ∧
      ∀ i, included sel i ↔ i = 31 :=
  ⟨⟨by decide, Or.inr (by decide)⟩,
    parse_opt_type_number 31 (by decide) (cstr "0X1f") (Or.inr (by decide))⟩


/-- The usual decimal numeral of every number up to 255 writes it in decimal. -/
theorem writes_decimal_numeral : ∀ n < 256, writes_decimal (fmt_lu n) n = true := by
  decide!

/-- The usual hexadecimal numerals of every number up to 255, in lower case after `0x`
and in upper case after `0X`, write it in hexadecimal. -/
theorem writes_hex_numeral :
    ∀ n < 256, writes_hex (cstr "0x" ++ (Nat.toDigits 16 n).map Char.toNat) n = true ∧
      writes_hex (cstr "0X" ++ (Nat.toDigits 16 n).map (fun c => c.toUpper.toNat)) n = true := by
  decide!

theorem to_ulong_eq_min (n : Nat) : to_ulong false n = min n ULONG_MAX := by
  unfold to_ulong
  split_ifs with h h2
  · omega
  · exact absurd h2 (by simp)
  · omega

/-- A token that is no category keyword takes the numeric path. -/
theorem find_type_keyword_none (t : CStr) (h : is_category_keyword t = false) :
    opt_type_keyword.find? (fun k => decide (strcasecmp t k.keyword = 0)) = none := by
  rw [List.find?_eq_none]
  intro k hk hz
  rw [decide_eq_true_eq, strcasecmp_eq_zero_iff, ← eq_ignoring_case_iff] at hz
  unfold is_category_keyword at h
  rw [List.any_eq_false] at h
  exact h k hk hz

/-- With no leading number `strtoul` converts nothing and leaves `endptr` at the start. -/
theorem strtoul_no_conversion (t : CStr) (h : has_leading_number t = false) :
    strtoul t 0 = (0, t) := by
  unfold has_leading_number at h
  have hd10 : ∀ c, ¬ (48 ≤ c ∧ c ≤ 57) → is_digit 10 c = false := by
    intro c hc
    unfold is_digit digit_value
    split_ifs <;> first | (simp only [decide_eq_false_iff_not]; omega) | rfl
  unfold strtoul
  rw [if_neg (by omega)]
  simp only []
  generalize skip_sign (t.dropWhile isspace) = u at h ⊢
  cases u with
  | nil => simp [skip_hex_mark, number_base, has_hex_mark]
  | cons c u =>
    simp only [Bool.and_eq_false_imp, decide_eq_true_eq, decide_eq_false_iff_not] at h
    have hc : ¬ (48 ≤ c ∧ c ≤ 57) := fun hh => h hh.1 hh.2
    have hc48 : c ≠ 48 := by omega
    have hmark : has_hex_mark (c :: u) = false := by
      unfold has_hex_mark
      split
      · rename_i heq; injection heq with h1 _; exact absurd h1 hc48
      · rfl
    have hb : number_base 0 (c :: u) = 10 := by
      unfold number_base
      simp [hmark, hc48]
    have h3 : skip_hex_mark 10 (c :: u) = c :: u := by
      unfold skip_hex_mark
      rw [if_neg (by omega)]
    simp only [hb, h3, List.takeWhile_cons, hd10 c hc]
    simp

/-- C3, amended: the token that writes a number above 255 fails with the range error and
no selector is returned; and a token that is not empty, is no category keyword and has no
leading number fails with the parse error and no selector is returned. -/
theorem parse_opt_type_rejects :
    (∀ (p : Option Selector) (n : Nat) (t : CStr), 255 < n →
      (writes_decimal t n = true ∨ writes_hex t n = true) →
      parse_opt_type p t =
        (none, [cstr "Invalid type number: " ++ fmt_lu (min n ULONG_MAX)])) ∧
    (∀ (p : Option Selector) (t : CStr), t ≠ [] → is_category_keyword t = false →
      has_leading_number t = false →
      parse_opt_type p t =
        (none, (cstr "Invalid type keyword: " ++ t) :: print_opt_type_list)) := by
  constructor
  · intro p n t hn ht
    obtain ⟨hs, c, s, rfl, hc⟩ := strtoul_writes t n ht
    unfold parse_opt_type
    rw [find_type_keyword_digit c s hc]
    simp only []
    rw [parse_numbers_single _ _ _ (List.cons_ne_nil _ _) hs,
      if_pos (to_ulong_gt n hn), to_ulong_eq_min]
  · intro p t hne hk hnum
    unfold parse_opt_type
    rw [find_type_keyword_none t hk]
    simp only []
    rw [parse_numbers]
    simp only [strtoul_no_conversion t hnum, if_neg hne, dif_pos]

theorem parse_opt_type_rejects_witness :
    parse_opt_type none (cstr "256") = (none, [cstr "Invalid type number: 256"]) ∧
    parse_opt_type none (cstr "foo") =
      (none, (cstr "Invalid type keyword: foo") :: print_opt_type_list) :=
  ⟨parse_opt_type_rejects.1 none 256 (cstr "256") (by decide) (Or.inl (by decide)),
    parse_opt_type_rejects.2 none (cstr "foo") (by decide) (by decide) (by decide)⟩

/-- C3 as stated fails at the empty token: it is no category keyword and no leading number
can be parsed from it, yet `parse_opt_type` succeeds, returning the selector and writing no
error. -/
theorem parse_opt_type_empty_not_rejected :
    is_category_keyword [] = false ∧ has_leading_number [] = false ∧
    parse_opt_type none [] = (some (List.replicate 256 0), []) := by
  refine ⟨by decide, by decide, ?_⟩
  unfold parse_opt_type
  rw [find_type_keyword_none [] (by decide)]
  exact parse_numbers_nil _


/-! ## C4: accumulation -/

theorem set_codes_length (codes : List Nat) (q : Selector) :
    (codes.foldl (fun q c => q.set c 1) q).length = q.length := by
  induction codes generalizing q with
  | nil => rfl
  | cons c codes ih => rw [List.foldl_cons, ih, List.length_set]

theorem included_set_codes (codes : List Nat) (q : Selector) (i : Nat) :
    included (codes.foldl (fun q c => q.set c 1) q) i ↔
      (i ∈ codes ∧ i < q.length) ∨ included q i := by
  induction codes generalizing q with
  | nil => simp
  | cons c codes ih =>
    rw [List.foldl_cons, ih, included_set, List.length_set, List.mem_cons]
    constructor
    · rintro (⟨h1, h2⟩ | ⟨h1, h2⟩ | h)
      · exact Or.inl ⟨Or.inr h1, h2⟩
      · exact Or.inl ⟨Or.inl h1, h1 ▸ h2⟩
      · exact Or.inr h
    · rintro (⟨h1 | h1, h2⟩ | h)
      · exact Or.inr (Or.inl ⟨h1, h1 ▸ h2⟩)
      · exact Or.inl ⟨h1, h2⟩
      · exact Or.inr (Or.inr h)

/-- A successful numeric path writes nothing to `stderr`, and what it does to the selector
is to set the entries of a list of codes that depends on the token only. -/
theorem parse_numbers_codes (p : Selector) (arg : CStr) :
    ∀ r e, parse_numbers p arg = (some r, e) →
      e = [] ∧ ∃ codes : List Nat, (∀ c ∈ codes, c < 256) ∧
        ∀ q, parse_numbers q arg = (some (codes.foldl (fun q c => q.set c 1) q), []) := by
  induction p, arg using parse_numbers.induct with
  | case1 p =>
    intro r e h
    rw [parse_numbers_nil] at h
    injection h with h1 h2
    exact ⟨h2.symm, [], by simp, fun q => parse_numbers_nil q⟩
  | case2 p arg hne next hnext =>
    intro r e h
    rw [parse_numbers] at h
    simp only [if_neg hne] at h
    rw [dif_pos hnext] at h
    injection h with h1 _
    exact absurd h1 (by simp)
  | case3 p arg hne val next hnext hval =>
    intro r e h
    rw [parse_numbers] at h
    simp only [if_neg hne] at h
    rw [dif_neg hnext, if_pos hval] at h
    injection h with h1 _
    exact absurd h1 (by simp)
  | case4 p arg hne val next hnext hval ih =>
    intro r e h
    rw [parse_numbers] at h
    simp only [if_neg hne] at h
    rw [dif_neg hnext, if_neg hval] at h
    obtain ⟨he, codes, hc, hq⟩ := ih r e h
    refine ⟨he, val :: codes, ?_, ?_⟩
    · intro c hmem
      rcases List.mem_cons.mp hmem with rfl | hmem
      · simp only [val] at hval ⊢; omega
      · exact hc c hmem
    · intro q
      rw [parse_numbers]
      simp only [if_neg hne]
      rw [dif_neg hnext, if_neg hval, List.foldl_cons]
      exact hq _

theorem type_keyword_codes_lt :
    ∀ k ∈ opt_type_keyword, ∀ c ∈ k.type.takeWhile (fun c => c ≠ 255), c < 256 := by decide

/-- A successful `parse_opt_type` writes nothing to `stderr`, and for a list of codes below
256 that depends on the token only, it succeeds on every selector and includes these codes
on top of those the selector includes. -/
theorem parse_opt_type_codes (p : Option Selector) (t : CStr) (r : Selector) (e : List CStr)
    (h : parse_opt_type p t = (some r, e)) :
    e = [] ∧ ∃ codes : List Nat, (∀ c ∈ codes, c < 256) ∧
      ∀ q : Option Selector, (selector_or_fresh q).length = 256 →
        ∃ r1, parse_opt_type q t = (some r1, []) ∧ r1.length = 256 ∧
          ∀ i, included r1 i ↔ i ∈ codes ∨ included (selector_or_fresh q) i := by
  unfold parse_opt_type at h
  cases hf : opt_type_keyword.find? (fun k => decide (strcasecmp t k.keyword = 0)) with
  | some k =>
    rw [hf] at h
    injection h with _ h2
    have hk : k ∈ opt_type_keyword := List.mem_of_find?_eq_some hf
    refine ⟨h2.symm, k.type.takeWhile (fun c => c ≠ 255), type_keyword_codes_lt k hk, ?_⟩
    intro q hq
    refine ⟨set_types k.type (selector_or_fresh q), ?_, ?_, ?_⟩
    · unfold parse_opt_type; rw [hf]
    · rw [set_types_length, hq]
    · intro i
      exact included_set_types _ _ (by rw [hq]; exact type_keyword_codes_lt k hk) i
  | none =>
    rw [hf] at h
    obtain ⟨he, codes, hc, hq⟩ := parse_numbers_codes _ _ r e h
    refine ⟨he, codes, hc, ?_⟩
    intro q hlen
    refine ⟨codes.foldl (fun q c => q.set c 1) (selector_or_fresh q), ?_, ?_, ?_⟩
    · unfold parse_opt_type; rw [hf]; exact hq _
    · rw [set_codes_length, hlen]
    · intro i
      rw [included_set_codes, hlen]
      constructor
      · rintro (⟨h1, _⟩ | h1)
        · exact Or.inl h1
        · exact Or.inr h1
      · rintro (h1 | h1)
        · exact Or.inl ⟨h1, hc i h1⟩
        · exact Or.inr h1

/-- C4: accumulation is a union with no removal. For a selector `s` of 256 entries and a
token `t` on which `parse_opt_type` succeeds, `parse_opt_type` on `s` succeeds too, and
its result has 256 entries and includes exactly the codes of `s` together with the codes
that `parse_opt_type` with no selector includes for `t`; so no code of `s` is dropped. In
particular "bios" and then "4" on the same selector gives the codes 0, 4 and 13. -/
theorem parse_opt_type_union :
    (∀ (s : Selector) (t : CStr) (r0 : Selector) (e0 : List CStr), s.length = 256 →
      parse_opt_type none t = (some r0, e0) →
      ∃ r, parse_opt_type (some s) t = (some r, []) ∧ r.length = 256 ∧
        (∀ i, included r i ↔ included s i ∨ included r0 i) ∧
        (∀ i, included s i → included r i)) ∧
    (∃ s1 s2, parse_opt_type none (cstr "bios") = (some s1, []) ∧
      parse_opt_type (some s1) (cstr "4") = (some s2, []) ∧
      ∀ i, included s2 i ↔ i ∈ [0, 4, 13]) := by
  have main : ∀ (s : Selector) (t : CStr) (r0 : Selector) (e0 : List CStr), s.length = 256 →
      parse_opt_type none t = (some r0, e0) →
      ∃ r, parse_opt_type (some s) t = (some r, []) ∧ r.length = 256 ∧
        (∀ i, included r i ↔ included s i ∨ included r0 i) ∧
        (∀ i, included s i → included r i) := by
    intro s t r0 e0 hs h
    obtain ⟨_, codes, _, hq⟩ := parse_opt_type_codes none t r0 e0 h
    obtain ⟨r1, h1, _, h1i⟩ := hq none (List.length_replicate _ _)
    obtain ⟨r, h2, h2l, h2i⟩ := hq (some s) hs
    rw [h] at h1
    injection h1 with h1a _
    injection h1a with h1a
    subst h1a
    have hfresh : ∀ i, ¬ included (selector_or_fresh none) i :=
      fun i => not_included_replicate 256 i
    have hr0 : ∀ i, included r0 i ↔ i ∈ codes := fun i =>
      (h1i i).trans (or_iff_left (hfresh i))
    refine ⟨r, h2, h2l, ?_, ?_⟩
    · intro i
      rw [h2i i, hr0 i]
      exact Or.comm
    · intro i hi
      exact (h2i i).mpr (Or.inr hi)
  refine ⟨main, ?_⟩
  have hlen : (List.replicate 256 (0 : Nat)).length = 256 := List.length_replicate _ _
  have h1 : parse_opt_type none (cstr "bios") =
      (some (set_types opt_type_bios (List.replicate 256 0)), []) :=
    parse_opt_type_keyword none _ (cstr "bios") ⟨cstr "bios", opt_type_bios⟩ rfl (by decide)
  have h0 : parse_opt_type none (cstr "4") = (some ((List.replicate 256 0).set 4 1), []) := by
    have h4 : cstr "4" = [52] := rfl
    unfold parse_opt_type
    rw [h4, find_type_keyword_digit 52 [] (by omega)]
    simp only [selector_or_fresh]
    rw [parse_numbers_single _ _ 4 (List.cons_ne_nil _ _) (by decide), if_neg (by omega)]
  obtain ⟨s2, h2, _, h2i, _⟩ := main (set_types opt_type_bios (List.replicate 256 0))
    (cstr "4") _ [] (by rw [set_types_length, hlen]) h0
  refine ⟨_, s2, h1, h2, ?_⟩
  intro i
  rw [h2i i, included_set_types _ _ (by rw [hlen]; decide), included_set, hlen]
  have hz := not_included_replicate 256 i
  have hcodes : List.takeWhile (fun c => decide (c ≠ 255)) opt_type_bios = [0, 13] := by
    decide
  have h4 : 4 < 256 := by omega
  rw [hcodes]
  simp only [List.mem_cons, List.mem_nil_iff, or_false]
  generalize included (List.replicate 256 0) i = z at hz ⊢
  clear h0 h1 h2 h2i main hlen hcodes
  tauto

theorem parse_opt_type_union_witness :
    ∃ r, parse_opt_type (some ((List.replicate 256 0).set 200 1)) (cstr "memory") =
        (some r, []) ∧ r.length = 256 ∧
      (∀ i, included r i ↔ included ((List.replicate 256 0).set 200 1) i ∨
        included (set_types opt_type_memory (List.replicate 256 0)) i) ∧
      (∀ i, included ((List.replicate 256 0).set 200 1) i → included r i) :=
  parse_opt_type_union.1 ((List.replicate 256 0).set 200 1) (cstr "memory")
    (set_types opt_type_memory (List.replicate 256 0)) []
    (by rw [List.length_set, List.length_replicate]) (by rfl)


/-! ## C5 and C6: the mutual exclusion checks -/

theorem exclusion_checks_opt (o : opt) : (exclusion_checks o).opt = o := by
  unfold exclusion_checks
  split_ifs <;> rfl

/-- The checks pass exactly when no invariant is violated. -/
theorem exclusion_checks_pass (o : opt) (h : ∀ k, violates o k = false) :
    exclusion_checks o = ⟨0, [], o⟩ := by
  have h1 := h 1
  have h2 := h 2
  have h3 := h 3
  have h4 := h 4
  have h5 := h 5
  simp only [violates, Bool.and_eq_false_imp, Bool.or_eq_false_iff, Option.isSome_iff_ne_none,
    ne_eq, Option.not_isSome_iff_eq_none, Bool.not_eq_true, Option.not_isSome,
    Option.isNone_iff_eq_none] at h1 h2 h3 h4 h5
  unfold exclusion_checks
  rw [if_neg (fun hh => hh.1 (h1 hh.2)), if_neg (fun hh => hh.2 (h2 hh.1)),
    if_neg (fun hh => by have := h3 hh.1; rw [hh.2] at this; cases this),
    if_neg (fun hh => by
      have := h4 hh.1
      rcases hh.2 with h6 | h6
      · exact h6 this.1
      · exact h6 this.2),
    if_neg (fun hh => by have := h5 hh.1; rw [hh.2] at this; cases this)]

/-- The checks stop at the lowest-numbered violated invariant. -/
theorem exclusion_checks_first (o : opt) (k : Nat) (hk : violates o k = true)
    (hmin : ∀ j, j < k → violates o j = false) :
    exclusion_checks o = ⟨-1, [exclusion_message k], o⟩ := by
  have hk5 : k = 1 ∨ k = 2 ∨ k = 3 ∨ k = 4 ∨ k = 5 := by
    rcases k with _ | _ | _ | _ | _ | _ | k
    · exact absurd hk (by simp [violates])
    · exact Or.inl rfl
    · exact Or.inr (Or.inl rfl)
    · exact Or.inr (Or.inr (Or.inl rfl))
    · exact Or.inr (Or.inr (Or.inr (Or.inl rfl)))
    · exact Or.inr (Or.inr (Or.inr (Or.inr rfl)))
    · exact absurd hk (by simp [violates])
  have e1 : violates o 1 = true ↔ o.type ≠ none ∧ o.string ≠ none := by
    simp only [violates, Bool.and_eq_true, Option.isSome_iff_ne_none]; exact And.comm
  have e2 : violates o 2 = true ↔ o.flags.dump = true ∧ o.string ≠ none := by
    simp only [violates, Bool.and_eq_true, Option.isSome_iff_ne_none]
  have e3 : violates o 3 = true ↔ o.flags.dump = true ∧ o.flags.quiet = true := by
    simp only [violates, Bool.and_eq_true]
  have e4 : violates o 4 = true ↔
      o.flags.dump_bin = true ∧ (o.type ≠ none ∨ o.string ≠ none) := by
    simp only [violates, Bool.and_eq_true, Bool.or_eq_true, Option.isSome_iff_ne_none]
  have e5 : violates o 5 = true ↔ o.flags.from_dump = true ∧ o.flags.dump_bin = true := by
    simp only [violates, Bool.and_eq_true]
  have n1 : ∀ j, violates o j = false → ¬ violates o j = true := by
    intro j h; rw [h]; exact Bool.false_ne_true
  unfold exclusion_checks
  rcases hk5 with rfl | rfl | rfl | rfl | rfl
  · rw [if_pos (e1.mp hk)]; rfl
  · rw [if_neg (fun h => n1 1 (hmin 1 (by omega)) (e1.mpr h)), if_pos (e2.mp hk)]; rfl
  · rw [if_neg (fun h => n1 1 (hmin 1 (by omega)) (e1.mpr h)),
      if_neg (fun h => n1 2 (hmin 2 (by omega)) (e2.mpr h)), if_pos (e3.mp hk)]; rfl
  · rw [if_neg (fun h => n1 1 (hmin 1 (by omega)) (e1.mpr h)),
      if_neg (fun h => n1 2 (hmin 2 (by omega)) (e2.mpr h)),
      if_neg (fun h => n1 3 (hmin 3 (by omega)) (e3.mpr h)), if_pos (e4.mp hk)]; rfl
  · rw [if_neg (fun h => n1 1 (hmin 1 (by omega)) (e1.mpr h)),
      if_neg (fun h => n1 2 (hmin 2 (by omega)) (e2.mpr h)),
      if_neg (fun h => n1 3 (hmin 3 (by omega)) (e3.mpr h)),
      if_neg (fun h => n1 4 (hmin 4 (by omega)) (e4.mpr h)), if_pos (e5.mp hk)]; rfl

/-- A state that violates an invariant has a lowest-numbered violated invariant. -/
theorem exists_first_violation (o : opt) (h : ∃ k, violates o k = true) :
    ∃ k, violates o k = true ∧ ∀ j, j < k → violates o j = false := by
  classical
  refine ⟨Nat.find h, Nat.find_spec h, ?_⟩
  intro j hj
  have := Nat.find_min h hj
  simpa using this

theorem parse_command_line_of_loop (o : opt) (args : List getopt) (o1 : opt)
    (h : option_loop o args = .ok o1) : parse_command_line o args = exclusion_checks o1 := by
  unfold parse_command_line
  rw [h]

/-- Every `return` out of the option loop returns -1. -/
theorem option_loop_error_ret (o : opt) (args : List getopt) (r : outcome)
    (h : option_loop o args = .error r) : r.ret = -1 := by
  induction args generalizing o with
  | nil => simp [option_loop] at h
  | cons g rest ih =>
    cases g <;> simp only [option_loop] at h
    case s optarg =>
      split_ifs at h
      · injection h with h; rw [← h]
      · exact ih _ h
    case t optarg =>
      split_ifs at h
      · injection h with h; rw [← h]
      · exact ih _ h
    case unknown optopt diag => injection h with h; rw [← h]
    all_goals exact ih _ h

/-- C5: each conflicting option pair is rejected. When the option loop ends in a state in
which (a) string and type, (b) dump-raw and string, (c) dump-raw and quiet, (d) dump-bin
with type or string, or (e) from-dump and dump-bin are set together, `parse_command_line`
returns -1; so a return value of 0 means that the final state violates none of the five
invariants. The tokens `--string system-uuid --type bios` are rejected with the
string/type error. -/
theorem parse_command_line_rejects_conflicts :
    (∀ (o : opt) (args : List getopt) (o1 : opt), option_loop o args = .ok o1 →
      (o1.string.isSome ∧ o1.type.isSome ∨ o1.flags.dump ∧ o1.string.isSome ∨
        o1.flags.dump ∧ o1.flags.quiet ∨
        o1.flags.dump_bin ∧ (o1.type.isSome ∨ o1.string.isSome) ∨
        o1.flags.from_dump ∧ o1.flags.dump_bin) →
      (parse_command_line o args).ret = -1) ∧
    (∀ (o : opt) (args : List getopt), (parse_command_line o args).ret = 0 →
      option_loop o args = .ok (parse_command_line o args).opt ∧
      ∀ k, violates (parse_command_line o args).opt k = false) ∧
    parse_command_line opt_zero [.s (cstr "system-uuid"), .t (cstr "bios")] =
      ⟨-1, [cstr "Options --string and --type are mutually exclusive"],
        { opt_zero with
          string := some ⟨cstr "system-uuid", 1, 0x08, none, some hook.dmi_system_uuid⟩,
          type := some (set_types opt_type_bios (List.replicate 256 0)),
          flags := { opt_zero.flags with quiet := true } }⟩ := by
  refine ⟨?_, ?_, ?_⟩
  · intro o args o1 hloop hv
    have hex : ∃ k, violates o1 k = true := by
      rcases hv with h | h | h | h | h
      · exact ⟨1, by simp [violates, h.1, h.2]⟩
      · exact ⟨2, by simp [violates, h.1, h.2]⟩
      · exact ⟨3, by simp [violates, h.1, h.2]⟩
      · exact ⟨4, by rcases h with ⟨h1, h2 | h2⟩ <;> simp [violates, h1, h2]⟩
      · exact ⟨5, by simp [violates, h.1, h.2]⟩
    obtain ⟨k, hk, hmin⟩ := exists_first_violation o1 hex
    rw [parse_command_line_of_loop o args o1 hloop, exclusion_checks_first o1 k hk hmin]
  · intro o args hret
    cases hloop : option_loop o args with
    | error r =>
      have h1 := option_loop_error_ret o args r hloop
      unfold parse_command_line at hret
      rw [hloop] at hret
      simp only [] at hret
      rw [h1] at hret
      exact absurd hret (by decide)
    | ok o1 =>
      rw [parse_command_line_of_loop o args o1 hloop] at hret ⊢
      rw [exclusion_checks_opt]
      refine ⟨rfl, ?_⟩
      intro k
      by_contra hk
      have hk1 : violates o1 k = true := by simpa using hk
      obtain ⟨j, hj, hmin⟩ := exists_first_violation o1 ⟨k, hk1⟩
      rw [exclusion_checks_first o1 j hj hmin] at hret
      exact absurd hret (show (-1 : Int) ≠ 0 by decide)
  · rfl

theorem parse_command_line_rejects_conflicts_witness :
    (parse_command_line opt_zero [.u, .q]).ret = -1 :=
  parse_command_line_rejects_conflicts.1 opt_zero [.u, .q]
    { opt_zero with flags := { opt_zero.flags with dump := true, quiet := true } } rfl
    (Or.inr (Or.inr (Or.inl ⟨rfl, rfl⟩)))

/-- C6: the checks report the first violated invariant, in the order 1 to 5, and nothing
else. When the option loop ends in a state that violates at least one invariant,
`parse_command_line` returns -1 and writes exactly the line of the lowest-numbered violated
invariant. A state with a string keyword, a type selector and dump-bin all set gets the
string/type line. -/
theorem parse_command_line_first_violation :
    (∀ (o : opt) (args : List getopt) (o1 : opt), option_loop o args = .ok o1 →
      (∃ k, violates o1 k = true) →
      ∃ k, violates o1 k = true ∧ (∀ j, j < k → violates o1 j = false) ∧
        parse_command_line o args = ⟨-1, [exclusion_message k], o1⟩) ∧
    (∀ (o1 : opt), o1.string.isSome → o1.type.isSome → o1.flags.dump_bin →
      parse_command_line o1 [] =
        ⟨-1, [cstr "Options --string and --type are mutually exclusive"], o1⟩) := by
  constructor
  · intro o args o1 hloop hv
    obtain ⟨k, hk, hmin⟩ := exists_first_violation o1 hv
    exact ⟨k, hk, hmin, by
      rw [parse_command_line_of_loop o args o1 hloop, exclusion_checks_first o1 k hk hmin]⟩
  · intro o1 hs ht _
    rw [parse_command_line_of_loop o1 [] o1 rfl,
      exclusion_checks_first o1 1 (by simp [violates, hs, ht])
        (fun j hj => by
          have : j = 0 := by omega
          subst this
          rfl)]
    rfl

theorem parse_command_line_first_violation_witness :
    ∃ k, violates (parse_command_line opt_zero
          [.B (cstr "out.bin"), .F (cstr "in.bin"), .u, .q]).opt k = true ∧
      (∀ j, j < k → violates (parse_command_line opt_zero
          [.B (cstr "out.bin"), .F (cstr "in.bin"), .u, .q]).opt j = false) ∧
      parse_command_line opt_zero [.B (cstr "out.bin"), .F (cstr "in.bin"), .u, .q] =
        ⟨-1, [exclusion_message k], (parse_command_line opt_zero
          [.B (cstr "out.bin"), .F (cstr "in.bin"), .u, .q]).opt⟩ :=
  parse_command_line_first_violation.1 opt_zero
    [.B (cstr "out.bin"), .F (cstr "in.bin"), .u, .q] _ rfl ⟨3, rfl⟩


/-! ## C7, C8 and C9: the string keywords -/

/-- C7: a second string selection always fails. With a string keyword already selected,
`parse_opt_string` returns -1 for every token, valid keyword or not, writes "Only one
string can be specified" and nothing of the lookup, and leaves the option state, the
selected keyword included, as it was. -/
theorem parse_opt_string_second (o : opt) (k0 : string_keyword) (t : CStr) :
    parse_opt_string { o with string := some k0 } t =
      ⟨-1, [cstr "Only one string can be specified"], { o with string := some k0 }⟩ ∧
    (parse_opt_string { o with string := some k0 } t).opt.string = some k0 := by
  constructor
  · unfold parse_opt_string
    rw [if_pos (by simp)]
  · unfold parse_opt_string
    rw [if_pos (by simp)]

/-- A token that is no string keyword is not found in the registry. -/
theorem find_string_keyword_none (t : CStr) (h : is_string_keyword t = false) :
    opt_string_keyword.find? (fun k => decide (strcasecmp t k.keyword = 0)) = none := by
  rw [List.find?_eq_none]
  intro k hk hz
  rw [decide_eq_true_eq, strcasecmp_eq_zero_iff, ← eq_ignoring_case_iff] at hz
  unfold is_string_keyword at h
  rw [List.any_eq_false] at h
  exact h k hk hz

/-- The lookup of a token that is no string keyword, no string being selected yet. -/
theorem parse_opt_string_invalid (o : opt) (t : CStr) (ho : o.string = none)
    (ht : is_string_keyword t = false) :
    parse_opt_string o t =
      ⟨-1, (cstr "Invalid string keyword: " ++ t) :: cstr "Valid string keywords are:" ::
        opt_string_keyword.map (fun k => cstr "  " ++ k.keyword), o⟩ := by
  unfold parse_opt_string
  rw [if_neg (by rw [ho]; simp), find_string_keyword_none t ht]
  rfl

/-- The registry as dmiopt.c has it counts 22 entries, not 21. -/
theorem opt_string_keyword_length_ne : opt_string_keyword.length ≠ 21 := by decide

/-- C8, amended: the string keyword registry has exactly 22 entries, and looking up a
token that matches none of them, "foo" for one, fails with the not-found error: -1 is
returned, the option state is unchanged, and `stderr` gets the line naming the token, the
heading, and one line for each of the 22 keywords. -/
theorem parse_opt_string_not_found :
    opt_string_keyword.length = 22 ∧
    (∀ (o : opt) (t : CStr), o.string = none → is_string_keyword t = false →
      parse_opt_string o t =
        ⟨-1, (cstr "Invalid string keyword: " ++ t) :: cstr "Valid string keywords are:" ::
          opt_string_keyword.map (fun k => cstr "  " ++ k.keyword), o⟩ ∧
      (∀ k ∈ opt_string_keyword, cstr "  " ++ k.keyword ∈ (parse_opt_string o t).err) ∧
      (parse_opt_string o t).err.length = 2 + 22) ∧
    (parse_opt_string opt_zero (cstr "foo")).ret = -1 := by
  have main := parse_opt_string_invalid
  refine ⟨by decide, ?_, ?_⟩
  · intro o t ho ht
    refine ⟨main o t ho ht, ?_, ?_⟩
    · intro k hk
      rw [main o t ho ht]
      exact List.mem_cons_of_mem _ (List.mem_cons_of_mem _
        (List.mem_map.mpr ⟨k, hk, rfl⟩))
    · rw [main o t ho ht]
      simp only [List.length_cons, List.length_map]
      rfl
  · rw [main opt_zero (cstr "foo") rfl (by decide)]

theorem parse_opt_string_not_found_witness :
    parse_opt_string opt_zero (cstr "foo") =
        ⟨-1, (cstr "Invalid string keyword: " ++ cstr "foo") ::
          cstr "Valid string keywords are:" ::
          opt_string_keyword.map (fun k => cstr "  " ++ k.keyword), opt_zero⟩ ∧
      (∀ k ∈ opt_string_keyword,
        cstr "  " ++ k.keyword ∈ (parse_opt_string opt_zero (cstr "foo")).err) ∧
      (parse_opt_string opt_zero (cstr "foo")).err.length = 2 + 22 :=
  parse_opt_string_not_found.2.1 opt_zero (cstr "foo") rfl (by decide)


theorem string_keyword_unique :
    ∀ e ∈ opt_string_keyword, ∀ e1 ∈ opt_string_keyword,
      e.keyword.map tolower = e1.keyword.map tolower → e = e1 := by decide

theorem string_keyword_no_proper_part :
    ∀ e ∈ opt_string_keyword, ∀ e1 ∈ opt_string_keyword,
      e.keyword.length < e1.keyword.length →
        (e1.keyword.map tolower).take e.keyword.length ≠ e.keyword.map tolower := by decide

theorem find?_of_unique {α : Type} (f : α → Bool) (l : List α) (e : α) (he : e ∈ l)
    (hf : f e = true) (hu : ∀ x ∈ l, f x = true → x = e) : l.find? f = some e := by
  induction l with
  | nil => cases he
  | cons a l ih =>
    rw [List.find?_cons]
    cases hfa : f a with
    | true => rw [hu a (List.mem_cons_self _ _) hfa]
    | false =>
      have hne : e ≠ a := fun h => by rw [h, hfa] at hf; cases hf
      rcases List.mem_cons.mp he with h | h
      · exact absurd h hne
      · exact ih h (fun x hx => hu x (List.mem_cons_of_mem _ hx))

/-- The lookup of a token that is the keyword of the entry `e`, letter case ignored. -/
theorem parse_opt_string_found (o : opt) (t : CStr) (e : string_keyword)
    (ho : o.string = none) (he : e ∈ opt_string_keyword)
    (ht : eq_ignoring_case t e.keyword = true) :
    parse_opt_string o t = ⟨0, [], { o with string := some e }⟩ := by
  have hfind : opt_string_keyword.find? (fun k => decide (strcasecmp t k.keyword = 0))
      = some e := by
    apply find?_of_unique _ _ e he
    · rw [decide_eq_true_eq, strcasecmp_eq_zero_iff, ← eq_ignoring_case_iff]; exact ht
    · intro x hx hxt
      rw [decide_eq_true_eq, strcasecmp_eq_zero_iff] at hxt
      rw [eq_ignoring_case_iff] at ht
      exact string_keyword_unique x hx e he (hxt.symm.trans ht)
  unfold parse_opt_string
  rw [if_neg (by rw [ho]; simp), hfind]

/-- C9: the string keyword lookup is a case-insensitive exact match. With no string
selected yet, `parse_opt_string` succeeds exactly on the tokens that are the keyword of a
registry entry when ASCII letter case is ignored, and it then selects that very entry; no
two registry keywords are the same ignoring case; and a token that is a proper part of
the start of a keyword, or a keyword with something added, is not found. -/
theorem parse_opt_string_lookup :
    (∀ (o : opt) (t : CStr), o.string = none →
      ((parse_opt_string o t).ret = 0 ↔
        ∃ e ∈ opt_string_keyword, eq_ignoring_case t e.keyword = true)) ∧
    (∀ (o : opt) (t : CStr) (e : string_keyword), o.string = none →
      e ∈ opt_string_keyword → eq_ignoring_case t e.keyword = true →
      parse_opt_string o t = ⟨0, [], { o with string := some e }⟩) ∧
    (∀ e ∈ opt_string_keyword, ∀ e1 ∈ opt_string_keyword,
      eq_ignoring_case e.keyword e1.keyword = true → e = e1) ∧
    (∀ (o : opt) (t w : CStr) (e : string_keyword), o.string = none →
      e ∈ opt_string_keyword → w ≠ [] →
      (eq_ignoring_case (t ++ w) e.keyword = true ∨
        eq_ignoring_case t (e.keyword ++ w) = true) →
      (parse_opt_string o t).ret = -1 ∧ (parse_opt_string o t).opt = o) := by
  refine ⟨?_, parse_opt_string_found, ?_, ?_⟩
  · intro o t ho
    constructor
    · intro hret
      by_contra hno
      have hk : is_string_keyword t = false := by
        unfold is_string_keyword
        rw [List.any_eq_false]
        intro e he hte
        exact hno ⟨e, he, hte⟩
      rw [parse_opt_string_invalid o t ho hk] at hret
      exact absurd hret (show (-1 : Int) ≠ 0 by decide)
    · rintro ⟨e, he, hte⟩
      rw [parse_opt_string_found o t e ho he hte]
  · intro e he e1 he1 h
    rw [eq_ignoring_case_iff] at h
    exact string_keyword_unique e he e1 he1 h
  · intro o t w e ho he hw h
    have hk : is_string_keyword t = false := by
      unfold is_string_keyword
      rw [List.any_eq_false]
      intro e1 he1 hte
      rw [eq_ignoring_case_iff] at hte
      have hwl : 0 < w.length := List.length_pos.mpr hw
      rcases h with h | h
      · rw [eq_ignoring_case_iff, List.map_append, hte] at h
        have hlen := congrArg List.length h
        simp only [List.length_append, List.length_map] at hlen
        apply string_keyword_no_proper_part e1 he1 e he (by omega)
        rw [← h, ← List.length_map e1.keyword tolower, List.take_left]
      · rw [eq_ignoring_case_iff, List.map_append] at h
        rw [h] at hte
        have hlen := congrArg List.length hte
        simp only [List.length_append, List.length_map] at hlen
        apply string_keyword_no_proper_part e he e1 he1 (by omega)
        rw [← hte, ← List.length_map e.keyword tolower, List.take_left]
    rw [parse_opt_string_invalid o t ho hk]
    exact ⟨rfl, rfl⟩

theorem parse_opt_string_lookup_witness :
    parse_opt_string opt_zero (cstr "System-UUID") =
        ⟨0, [], { opt_zero with
          string := some ⟨cstr "system-uuid", 1, 0x08, none, some hook.dmi_system_uuid⟩ }⟩ ∧
      ((parse_opt_string opt_zero (cstr "system-uu")).ret = -1 ∧
        (parse_opt_string opt_zero (cstr "system-uu")).opt = opt_zero) :=
  ⟨parse_opt_string_lookup.2.1 opt_zero (cstr "System-UUID")
      ⟨cstr "system-uuid", 1, 0x08, none, some hook.dmi_system_uuid⟩ rfl (by decide)
      (by decide),
    parse_opt_string_lookup.2.2.2 opt_zero (cstr "system-uu") (cstr "id")
      ⟨cstr "system-uuid", 1, 0x08, none, some hook.dmi_system_uuid⟩ rfl (by decide)
      (by decide) (Or.inl (by decide))⟩


/-! ## C10: selecting a string implies quiet -/

theorem parse_opt_string_flags (o : opt) (t : CStr) :
    (parse_opt_string o t).opt.flags = o.flags := by
  unfold parse_opt_string
  split_ifs
  · rfl
  · split <;> rfl

/-- A failed `parse_opt_string` is a second selection or an unknown keyword, and leaves
the option state as it was. -/
theorem parse_opt_string_failed (o : opt) (t : CStr) (h : (parse_opt_string o t).ret < 0) :
    (o.string.isSome = true ∨ is_string_keyword t = false) ∧ (parse_opt_string o t).opt = o := by
  unfold parse_opt_string at h ⊢
  split_ifs at h ⊢ with hs
  · refine ⟨Or.inl ?_, rfl⟩
    exact Option.isSome_iff_ne_none.mpr hs
  · cases hf : opt_string_keyword.find? (fun k => decide (strcasecmp t k.keyword = 0)) with
    | some k => rw [hf] at h; exact absurd h (show ¬ ((0 : Int) < 0) by decide)
    | none =>
      refine ⟨Or.inr ?_, rfl⟩
      unfold is_string_keyword
      rw [List.any_eq_false]
      intro e he hte
      rw [List.find?_eq_none] at hf
      apply hf e he
      rw [decide_eq_true_eq, strcasecmp_eq_zero_iff, ← eq_ignoring_case_iff]
      exact hte

/-- The option loop over two lists in a row. -/
theorem option_loop_append (o : opt) (pre rest : List getopt) :
    option_loop o (pre ++ rest) =
      match option_loop o pre with
      | .ok o1 => option_loop o1 rest
      | .error r => .error r := by
  induction pre generalizing o with
  | nil => rfl
  | cons g pre ih =>
    cases g <;> simp only [List.cons_append, option_loop]
    case s optarg => split_ifs <;> first | rfl | exact ih _
    case t optarg => split_ifs <;> first | rfl | exact ih _
    all_goals exact ih _

/-- The option loop never clears the quiet flag. -/
theorem option_loop_quiet (o : opt) (args : List getopt) (o1 : opt)
    (h : option_loop o args = .ok o1) (hq : o.flags.quiet = true) :
    o1.flags.quiet = true := by
  induction args generalizing o with
  | nil =>
    simp only [option_loop] at h
    injection h with h
    rw [← h]; exact hq
  | cons g rest ih =>
    cases g <;> simp only [option_loop] at h
    case s optarg =>
      split_ifs at h
      exact ih _ h rfl
    case t optarg =>
      split_ifs at h
      exact ih _ h hq
    case unknown optopt diag => cases h
    all_goals exact ih _ h (by first | exact hq | rfl)

/-- The option loop keeps the invariant that a selected string comes with quiet. -/
theorem option_loop_string_quiet (o : opt) (args : List getopt) (o1 : opt)
    (h : option_loop o args = .ok o1) (hinv : o.string.isSome = true → o.flags.quiet = true) :
    o1.string.isSome = true → o1.flags.quiet = true := by
  induction args generalizing o with
  | nil =>
    simp only [option_loop] at h
    injection h with h
    rw [← h]; exact hinv
  | cons g rest ih =>
    cases g <;> simp only [option_loop] at h
    case s optarg =>
      split_ifs at h
      exact ih _ h (fun _ => rfl)
    case t optarg =>
      split_ifs at h
      exact ih _ h hinv
    case unknown optopt diag => cases h
    all_goals exact ih _ h (by first | exact hinv | exact fun _ => rfl)

/-- C10: selecting a string implies quiet. When the option loop gets through a sequence
with a string option in it, the quiet flag is set in the resulting state; so every state
that `parse_command_line` accepts, started with no string selected, has the quiet flag set
if it has a string keyword selected. A string option that fails (second selection or
unknown keyword) makes `parse_command_line` return -1 in the state reached before it: the
quiet flag is not set by it. -/
theorem string_implies_quiet :
    (∀ (o : opt) (pre : List getopt) (optarg : CStr) (rest : List getopt) (o1 : opt),
      option_loop o (pre ++ .s optarg :: rest) = .ok o1 → o1.flags.quiet = true) ∧
    (∀ (o : opt) (args : List getopt), o.string = none →
      (parse_command_line o args).ret = 0 →
      (parse_command_line o args).opt.string.isSome = true →
      (parse_command_line o args).opt.flags.quiet = true) ∧
    (∀ (o : opt) (pre : List getopt) (optarg : CStr) (rest : List getopt) (o1 : opt),
      option_loop o pre = .ok o1 →
      (o1.string.isSome = true ∨ is_string_keyword optarg = false) →
      parse_command_line o (pre ++ .s optarg :: rest) =
        ⟨-1, (parse_opt_string o1 optarg).err, o1⟩) := by
  refine ⟨?_, ?_, ?_⟩
  · intro o pre optarg rest o1 h
    rw [option_loop_append] at h
    cases hpre : option_loop o pre with
    | error r => rw [hpre] at h; cases h
    | ok o2 =>
      rw [hpre] at h
      simp only [option_loop] at h
      split_ifs at h
      exact option_loop_quiet _ rest o1 h rfl
  · intro o args ho hret hs
    cases hloop : option_loop o args with
    | error r =>
      have h1 := option_loop_error_ret o args r hloop
      unfold parse_command_line at hret
      rw [hloop] at hret
      simp only [] at hret
      rw [h1] at hret
      exact absurd hret (show (-1 : Int) ≠ 0 by decide)
    | ok o1 =>
      rw [parse_command_line_of_loop o args o1 hloop, exclusion_checks_opt] at hs ⊢
      exact option_loop_string_quiet o args o1 hloop (by rw [ho]; intro h; cases h) hs
  · intro o pre optarg rest o1 hpre hbad
    have hfail : (parse_opt_string o1 optarg).ret < 0 := by
      rcases hbad with hb | hb
      · obtain ⟨k0, hk0⟩ := Option.isSome_iff_exists.mp hb
        unfold parse_opt_string
        rw [if_pos (by rw [hk0]; simp)]
        exact (show (-1 : Int) < 0 by decide)
      · by_cases hs : o1.string = none
        · rw [parse_opt_string_invalid o1 optarg hs hb]
          exact (show (-1 : Int) < 0 by decide)
        · unfold parse_opt_string
          rw [if_pos hs]
          exact (show (-1 : Int) < 0 by decide)
    unfold parse_command_line
    rw [option_loop_append, hpre]
    simp only [option_loop]
    rw [if_pos hfail, (parse_opt_string_failed o1 optarg hfail).2]

theorem string_implies_quiet_witness :
    (parse_command_line opt_zero [.h, .s (cstr "bios-vendor"), .V]).opt.flags.quiet = true ∧
    parse_command_line opt_zero ([.h] ++ .s (cstr "foo") :: [.V]) =
      ⟨-1, (parse_opt_string { opt_zero with flags := { opt_zero.flags with help := true } }
          (cstr "foo")).err,
        { opt_zero with flags := { opt_zero.flags with help := true } }⟩ :=
  ⟨string_implies_quiet.2.1 opt_zero [.h, .s (cstr "bios-vendor"), .V] rfl (by decide)
      (by decide),
    string_implies_quiet.2.2 opt_zero [.h] (cstr "foo") [.V] _ rfl (Or.inr (by decide))⟩

/-! ## C17: the empty type token -/

/-- The empty token is no category keyword. -/
theorem find_type_keyword_nil :
    opt_type_keyword.find? (fun k => decide (strcasecmp [] k.keyword = 0)) = none := by
  decide

/-- C17: the empty type token is accepted and selects nothing. `parse_opt_type` succeeds
on it for every selector, returning the selector as it was, and a fresh selector of 256
entries none of which is included when there was none. The selector so created counts as
set: `--type "" --string bios-vendor` is rejected with the string/type error although no
type code is included. -/
theorem parse_opt_type_empty :
    (∀ s : Selector, parse_opt_type (some s) [] = (some s, [])) ∧
    (parse_opt_type none [] = (some (List.replicate 256 0), []) ∧
      (List.replicate 256 0).length = 256 ∧ ∀ i, ¬ included (List.replicate 256 0) i) ∧
    parse_command_line opt_zero [.t [], .s (cstr "bios-vendor")] =
      ⟨-1, [cstr "Options --string and --type are mutually exclusive"],
        { opt_zero with
          type := some (List.replicate 256 0),
          string := some ⟨cstr "bios-vendor", 0, 0x04, none, none⟩,
          flags := { opt_zero.flags with quiet := true } }⟩ := by
  have h : ∀ p : Option Selector, parse_opt_type p [] = (some (selector_or_fresh p), []) := by
    intro p
    unfold parse_opt_type
    rw [find_type_keyword_nil]
    exact parse_numbers_nil _
  refine ⟨fun s => h (some s), ⟨h none, List.length_replicate _ _,
    fun i => not_included_replicate 256 i⟩, ?_⟩
  unfold parse_command_line
  simp only [option_loop, h]
  rfl

/-! ## C16: the checks accept every conflict-free state -/

theorem parse_command_line_append (o : opt) (pre rest : List getopt) :
    parse_command_line o (pre ++ rest) =
      match option_loop o pre with
      | .ok o1 => parse_command_line o1 rest
      | .error r => r := by
  unfold parse_command_line
  rw [option_loop_append]
  cases option_loop o pre <;> rfl

theorem parse_opt_string_decisive (o o1 : opt) (t : CStr) (h : decisive o = decisive o1) :
    (parse_opt_string o t).ret = (parse_opt_string o1 t).ret ∧
      (parse_opt_string o t).err = (parse_opt_string o1 t).err ∧
      decisive (parse_opt_string o t).opt = decisive (parse_opt_string o1 t).opt := by
  have h2 : o.string = o1.string := by
    simp only [decisive, Prod.mk.injEq] at h
    exact h.2.1
  unfold parse_opt_string
  rw [h2]
  by_cases hs : o1.string = none
  · rw [if_neg (not_not.mpr hs), if_neg (not_not.mpr hs)]
    cases opt_string_keyword.find? (fun k => decide (strcasecmp t k.keyword = 0)) with
    | none => exact ⟨rfl, rfl, h⟩
    | some k =>
      simp only [decisive, Prod.mk.injEq] at h ⊢
      obtain ⟨h1, _, h3, h4, h5, h6⟩ := h
      simp [h1, h3, h4, h5, h6]
  · rw [if_pos hs, if_pos hs]
    exact ⟨rfl, rfl, h⟩

/-- The return value and the lines written only depend on the decisive part of the state
that `parse_command_line` starts in. -/
theorem parse_command_line_decisive (o o1 : opt) (args : List getopt)
    (h : decisive o = decisive o1) :
    (parse_command_line o args).ret = (parse_command_line o1 args).ret ∧
      (parse_command_line o args).err = (parse_command_line o1 args).err := by
  induction args generalizing o o1 with
  | nil =>
    simp only [decisive, Prod.mk.injEq] at h
    obtain ⟨h1, h2, h3, h4, h5, h6⟩ := h
    unfold parse_command_line
    simp only [option_loop, exclusion_checks, h1, h2, h3, h4, h5, h6]
    split_ifs <;> exact ⟨rfl, rfl⟩
  | cons g rest ih =>
    have step : ∀ a b : opt, decisive a = decisive b →
        option_loop o (g :: rest) = option_loop a rest →
        option_loop o1 (g :: rest) = option_loop b rest →
        (parse_command_line o (g :: rest)).ret = (parse_command_line o1 (g :: rest)).ret ∧
        (parse_command_line o (g :: rest)).err = (parse_command_line o1 (g :: rest)).err := by
      intro a b hab ha hb
      have := ih a b hab
      unfold parse_command_line at this ⊢
      rw [ha, hb]
      exact this
    simp only [decisive, Prod.mk.injEq] at h
    obtain ⟨h1, h2, h3, h4, h5, h6⟩ := h
    cases g with
    | B optarg => exact step _ _ (by simp [decisive, h1, h2, h3, h4, h6]) rfl rfl
    | F optarg => exact step _ _ (by simp [decisive, h1, h2, h3, h4, h5]) rfl rfl
    | d optarg => exact step _ _ (by simp [decisive, h1, h2, h3, h4, h5, h6]) rfl rfl
    | h => exact step _ _ (by simp [decisive, h1, h2, h3, h4, h5, h6]) rfl rfl
    | q => exact step _ _ (by simp [decisive, h1, h2, h3, h5, h6]) rfl rfl
    | u => exact step _ _ (by simp [decisive, h1, h2, h4, h5, h6]) rfl rfl
    | V => exact step _ _ (by simp [decisive, h1, h2, h3, h4, h5, h6]) rfl rfl
    | unknown optopt diag =>
      simp [parse_command_line, option_loop]
    | s optarg =>
      obtain ⟨hr, he, hd⟩ := parse_opt_string_decisive o o1 optarg
        (by simp [decisive, h1, h2, h3, h4, h5, h6])
      by_cases hneg : (parse_opt_string o optarg).ret < 0
      · have hneg1 : (parse_opt_string o1 optarg).ret < 0 := hr ▸ hneg
        unfold parse_command_line
        simp only [option_loop, if_pos hneg, if_pos hneg1]
        exact ⟨trivial, he⟩
      · have hneg1 : ¬ (parse_opt_string o1 optarg).ret < 0 := hr ▸ hneg
        simp only [decisive, Prod.mk.injEq] at hd
        obtain ⟨d1, d2, d3, d4, d5, d6⟩ := hd
        exact step
          { (parse_opt_string o optarg).opt with
            flags := { (parse_opt_string o optarg).opt.flags with quiet := true } }
          { (parse_opt_string o1 optarg).opt with
            flags := { (parse_opt_string o1 optarg).opt.flags with quiet := true } }
          (by simp [decisive, d1, d2, d3, d5, d6])
          (by simp only [option_loop, if_neg hneg]) (by simp only [option_loop, if_neg hneg1])
    | t optarg =>
      by_cases hnone : (parse_opt_type o.type optarg).1 = none
      · have hnone1 : (parse_opt_type o1.type optarg).1 = none := h1 ▸ hnone
        unfold parse_command_line
        simp only [option_loop, if_pos hnone, if_pos hnone1]
        exact ⟨trivial, by rw [h1]⟩
      · have hnone1 : ¬ (parse_opt_type o1.type optarg).1 = none := h1 ▸ hnone
        exact step { o with type := (parse_opt_type o.type optarg).1 }
          { o1 with type := (parse_opt_type o1.type optarg).1 }
          (by simp [decisive, h1, h2, h3, h4, h5, h6])
          (by simp only [option_loop, if_neg hnone]) (by simp only [option_loop, if_neg hnone1])

/-- C16: the checks accept every conflict-free state. When every option is processed
without error and the state the loop ends in violates none of the five invariants,
`parse_command_line` returns 0 and writes nothing; and a help, version or device-path
option never causes a rejection: with or without it, at any place in the sequence, the
return value and the lines written are the same. -/
theorem parse_command_line_accepts :
    (∀ (o : opt) (args : List getopt) (o1 : opt), option_loop o args = .ok o1 →
      (∀ k, violates o1 k = false) → parse_command_line o args = ⟨0, [], o1⟩) ∧
    (∀ (o : opt) (pre rest : List getopt) (g : getopt), is_plain_option g = true →
      (parse_command_line o (pre ++ g :: rest)).ret = (parse_command_line o (pre ++ rest)).ret ∧
      (parse_command_line o (pre ++ g :: rest)).err =
        (parse_command_line o (pre ++ rest)).err) := by
  constructor
  · intro o args o1 hloop hv
    rw [parse_command_line_of_loop o args o1 hloop, exclusion_checks_pass o1 hv]
  · intro o pre rest g hg
    rw [parse_command_line_append, parse_command_line_append o pre rest]
    cases hpre : option_loop o pre with
    | error r => exact ⟨rfl, rfl⟩
    | ok o1 =>
      simp only []
      have key : ∀ o2 : opt, decisive o2 = decisive o1 →
          option_loop o1 (g :: rest) = option_loop o2 rest →
          (parse_command_line o1 (g :: rest)).ret = (parse_command_line o1 rest).ret ∧
          (parse_command_line o1 (g :: rest)).err = (parse_command_line o1 rest).err := by
        intro o2 hd h2
        have := parse_command_line_decisive o2 o1 rest hd
        unfold parse_command_line at this ⊢
        rw [h2]
        exact this
      cases g with
      | h => exact key { o1 with flags := { o1.flags with help := true } } rfl rfl
      | V => exact key { o1 with flags := { o1.flags with version := true } } rfl rfl
      | d optarg => exact key { o1 with devmem := some optarg } rfl rfl
      | _ => exact absurd hg (by simp [is_plain_option])

theorem parse_command_line_accepts_witness :
    parse_command_line opt_zero [.d (cstr "/dev/mem"), .t (cstr "bios"), .q] =
      ⟨0, [], { opt_zero with
        devmem := some (cstr "/dev/mem"),
        type := some (set_types opt_type_bios (List.replicate 256 0)),
        flags := { opt_zero.flags with quiet := true } }⟩ ∧
    ((parse_command_line opt_zero ([.u] ++ .h :: [.q])).ret =
        (parse_command_line opt_zero ([.u] ++ [.q])).ret ∧
      (parse_command_line opt_zero ([.u] ++ .h :: [.q])).err =
        (parse_command_line opt_zero ([.u] ++ [.q])).err) :=
  ⟨parse_command_line_accepts.1 opt_zero [.d (cstr "/dev/mem"), .t (cstr "bios"), .q] _ rfl
      (fun k => by rcases k with _ | _ | _ | _ | _ | _ | k <;> rfl),
    parse_command_line_accepts.2 opt_zero [.u] [.q] .h rfl⟩

/-! ## C14: the dump-bin and from-dump options -/

/-- C14 as stated fails where the two options follow each other: both store their
argument in the one field `opt.dumpfile`, so after `--dump-bin a.bin --from-dump b.bin`
the dump-bin flag is still set but the path recorded is `b.bin`; the path of the dump-bin
option was not left unchanged. -/
theorem from_dump_overwrites_dump_bin_path :
    (∃ o1, option_loop opt_zero [.B (cstr "a.bin")] = .ok o1 ∧
      o1.dumpfile = some (cstr "a.bin")) ∧
    (∃ o2, option_loop opt_zero [.B (cstr "a.bin"), .F (cstr "b.bin")] = .ok o2 ∧
      o2.flags.dump_bin = true ∧ o2.dumpfile = some (cstr "b.bin") ∧
      o2.dumpfile ≠ some (cstr "a.bin")) :=
  ⟨⟨_, rfl, rfl⟩, ⟨_, rfl, rfl, rfl, by decide⟩⟩

/-- C14, amended: processing `--dump-bin P` sets the dump-bin flag and processing
`--from-dump Q` sets the from-dump flag, and each records its path in the one field
`dumpfile`, overwriting the path the other may have stored there; each leaves the other
flags, the device path, the type selector and the selected string unchanged. -/
theorem dump_options_store :
    (∀ (o : opt) (pre : List getopt) (o1 : opt) (P : CStr), option_loop o pre = .ok o1 →
      ∃ o2, option_loop o (pre ++ [.B P]) = .ok o2 ∧
        o2.flags.dump_bin = true ∧ o2.dumpfile = some P ∧
        o2.flags.from_dump = o1.flags.from_dump ∧ o2.flags.version = o1.flags.version ∧
        o2.flags.help = o1.flags.help ∧ o2.flags.dump = o1.flags.dump ∧
        o2.flags.quiet = o1.flags.quiet ∧
        o2.devmem = o1.devmem ∧ o2.type = o1.type ∧ o2.string = o1.string) ∧
    (∀ (o : opt) (pre : List getopt) (o1 : opt) (Q : CStr), option_loop o pre = .ok o1 →
      ∃ o2, option_loop o (pre ++ [.F Q]) = .ok o2 ∧
        o2.flags.from_dump = true ∧ o2.dumpfile = some Q ∧
        o2.flags.dump_bin = o1.flags.dump_bin ∧ o2.flags.version = o1.flags.version ∧
        o2.flags.help = o1.flags.help ∧ o2.flags.dump = o1.flags.dump ∧
        o2.flags.quiet = o1.flags.quiet ∧
        o2.devmem = o1.devmem ∧ o2.type = o1.type ∧ o2.string = o1.string) := by
  constructor
  · intro o pre o1 P hpre
    refine ⟨{ o1 with flags := { o1.flags with dump_bin := true }, dumpfile := some P }, ?_,
      rfl, rfl, rfl, rfl, rfl, rfl, rfl, rfl, rfl, rfl⟩
    rw [option_loop_append, hpre]
    rfl
  · intro o pre o1 Q hpre
    refine ⟨{ o1 with flags := { o1.flags with from_dump := true }, dumpfile := some Q }, ?_,
      rfl, rfl, rfl, rfl, rfl, rfl, rfl, rfl, rfl, rfl⟩
    rw [option_loop_append, hpre]
    rfl

theorem dump_options_store_witness :
    ∃ o2, option_loop opt_zero ([.q, .F (cstr "b.bin")] ++ [.B (cstr "a.bin")]) = .ok o2 ∧
      o2.flags.dump_bin = true ∧ o2.dumpfile = some (cstr "a.bin") ∧
      o2.flags.from_dump = true ∧ o2.flags.version = false ∧
      o2.flags.help = false ∧ o2.flags.dump = false ∧ o2.flags.quiet = true ∧
      o2.devmem = none ∧ o2.type = none ∧ o2.string = none :=
  dump_options_store.1 opt_zero [.q, .F (cstr "b.bin")] _ (cstr "a.bin") rfl

/-! ## C11: the type option, end to end -/

/-- A token that `parse_opt_type` accepts with no selector is accepted on every selector
of 256 entries, and adds its codes to those of the selector. -/
theorem parse_opt_type_on (t : CStr) (r0 : Selector) (e0 : List CStr)
    (h : parse_opt_type none t = (some r0, e0)) (q : Option Selector)
    (hq : (selector_or_fresh q).length = 256) :
    ∃ r, parse_opt_type q t = (some r, []) ∧ r.length = 256 ∧
      ∀ i, included r i ↔ included (selector_or_fresh q) i ∨ included r0 i := by
  obtain ⟨_, codes, _, hall⟩ := parse_opt_type_codes none t r0 e0 h
  obtain ⟨r1, h1, _, h1i⟩ := hall none (List.length_replicate _ _)
  obtain ⟨r, h2, h2l, h2i⟩ := hall q hq
  rw [h] at h1
  injection h1 with h1a _
  injection h1a with h1a
  subst h1a
  refine ⟨r, h2, h2l, ?_⟩
  intro i
  have hz : ¬ included (selector_or_fresh none) i := not_included_replicate 256 i
  rw [h2i i, h1i i]
  constructor
  · rintro (hc | hs)
    · exact Or.inr (Or.inl hc)
    · exact Or.inl hs
  · rintro (hs | hc | hn)
    · exact Or.inr hs
    · exact Or.inl hc
    · exact absurd hn hz

/-- The option loop over type options only, each with a token that `parse_opt_type`
accepts: the loop gets through, only the type selector changes, and it includes the codes
it included before together with the codes of every token. -/
theorem option_loop_types (ts : List CStr)
    (hts : ∀ t ∈ ts, ∃ r e, parse_opt_type none t = (some r, e)) (o : opt)
    (ho : (selector_or_fresh o.type).length = 256) :
    ∃ o1, option_loop o (ts.map getopt.t) = .ok o1 ∧
      o1.devmem = o.devmem ∧ o1.flags = o.flags ∧ o1.string = o.string ∧
      o1.dumpfile = o.dumpfile ∧ (ts = [] → o1.type = o.type) ∧
      (ts ≠ [] → ∃ sel, o1.type = some sel) ∧
      (selector_or_fresh o1.type).length = 256 ∧
      ∀ i, included (selector_or_fresh o1.type) i ↔
        included (selector_or_fresh o.type) i ∨
          ∃ t ∈ ts, ∃ r e, parse_opt_type none t = (some r, e) ∧ included r i := by
  induction ts generalizing o with
  | nil =>
    refine ⟨o, rfl, rfl, rfl, rfl, rfl, fun _ => rfl, fun h => absurd rfl h, ho, ?_⟩
    intro i
    simp
  | cons t ts ih =>
    obtain ⟨r0, e0, h0⟩ := hts t (List.mem_cons_self _ _)
    obtain ⟨r, hr, hrl, hri⟩ := parse_opt_type_on t r0 e0 h0 o.type ho
    obtain ⟨o1, hloop, h1, h2, h3, h4, _, h6, h7, h8⟩ :=
      ih (fun u hu => hts u (List.mem_cons_of_mem _ hu)) { o with type := some r } hrl
    refine ⟨o1, ?_, h1, h2, h3, h4, fun h => absurd h (List.cons_ne_nil _ _), ?_, h7, ?_⟩
    · simp only [List.map_cons, option_loop, hr]
      exact hloop
    · intro _
      cases ts with
      | nil =>
        simp only [List.map_nil, option_loop] at hloop
        injection hloop with hloop
        exact ⟨r, by rw [← hloop]⟩
      | cons u us => exact h6 (List.cons_ne_nil _ _)
    · intro i
      rw [h8 i]
      simp only [selector_or_fresh]
      rw [hri i]
      constructor
      · rintro ((hs | hc) | ⟨u, hu, r1, e1, h1, hi⟩)
        · exact Or.inl hs
        · exact Or.inr ⟨t, List.mem_cons_self _ _, r0, e0, h0, hc⟩
        · exact Or.inr ⟨u, List.mem_cons_of_mem _ hu, r1, e1, h1, hi⟩
      · rintro (hs | ⟨u, hu, r1, e1, h1, hi⟩)
        · exact Or.inl (Or.inl hs)
        · rcases List.mem_cons.mp hu with rfl | hu
          · rw [h0] at h1
            injection h1 with h1a _
            injection h1a with h1a
            subst h1a
            exact Or.inl (Or.inr hi)
          · exact Or.inr ⟨u, hu, r1, e1, h1, hi⟩

/-- C11: the type option threads the selector through its occurrences. From the empty
option state, `--type memory --type 7` is accepted and leaves a selector of 256 entries
that includes exactly the codes 5, 6, 7, 16 and 17. In general a sequence of type
options, each with a token that `parse_opt_type` accepts, and no other option, is
accepted, 0 being returned; and when there is at least one, nothing is written, the
selector has 256 entries and includes exactly the codes that the tokens include one by
one, and the rest of the state is as at the start. -/
theorem parse_command_line_types :
    (∃ sel, parse_command_line opt_zero [.t (cstr "memory"), .t (cstr "7")] =
        ⟨0, [], { opt_zero with type := some sel }⟩ ∧ sel.length = 256 ∧
      ∀ i, included sel i ↔ i ∈ [5, 6, 7, 16, 17]) ∧
    (∀ ts : List CStr, (∀ t ∈ ts, ∃ r e, parse_opt_type none t = (some r, e)) →
      (parse_command_line opt_zero (ts.map getopt.t)).ret = 0 ∧
      (ts ≠ [] → ∃ sel, parse_command_line opt_zero (ts.map getopt.t) =
          ⟨0, [], { opt_zero with type := some sel }⟩ ∧ sel.length = 256 ∧
        ∀ i, included sel i ↔
          ∃ t ∈ ts, ∃ r e, parse_opt_type none t = (some r, e) ∧ included r i)) := by
  have main : ∀ ts : List CStr, ts ≠ [] →
      (∀ t ∈ ts, ∃ r e, parse_opt_type none t = (some r, e)) →
      ∃ sel, parse_command_line opt_zero (ts.map getopt.t) =
          ⟨0, [], { opt_zero with type := some sel }⟩ ∧ sel.length = 256 ∧
        ∀ i, included sel i ↔
          ∃ t ∈ ts, ∃ r e, parse_opt_type none t = (some r, e) ∧ included r i := by
    intro ts hne hts
    obtain ⟨o1, hloop, h1, h2, h3, h4, _, h6, h7, h8⟩ :=
      option_loop_types ts hts opt_zero (List.length_replicate _ _)
    obtain ⟨sel, hsel⟩ := h6 hne
    have ho1 : o1 = { opt_zero with type := some sel } := by
      cases o1
      simp only [opt.mk.injEq] at *
      exact ⟨h1, h2, hsel, h3, h4⟩
    subst ho1
    refine ⟨sel, ?_, h7, ?_⟩
    · rw [parse_command_line_of_loop _ _ _ hloop]
      exact exclusion_checks_pass _ (fun k => by rcases k with _ | _ | _ | _ | _ | _ | k <;> rfl)
    · intro i
      have := h8 i
      simp only [selector_or_fresh] at this
      rw [this]
      exact or_iff_right (not_included_replicate 256 i)
  refine ⟨?_, fun ts hts => ⟨?_, fun hne => main ts hne hts⟩⟩
  swap
  · cases ts with
    | nil => rfl
    | cons t ts =>
      obtain ⟨sel, h, _⟩ := main (t :: ts) (List.cons_ne_nil _ _) hts
      rw [h]
  have hlen : (List.replicate 256 (0 : Nat)).length = 256 := List.length_replicate _ _
  have hm : parse_opt_type none (cstr "memory") =
      (some (set_types opt_type_memory (List.replicate 256 0)), []) :=
    parse_opt_type_keyword none _ (cstr "memory") ⟨cstr "memory", opt_type_memory⟩ rfl
      (by decide)
  have hmi : ∀ i, included (set_types opt_type_memory (List.replicate 256 0)) i ↔
      i ∈ [5, 6, 16, 17] := by
    intro i
    rw [included_set_types _ _ (by rw [hlen]; decide)]
    have hcodes : List.takeWhile (fun c => decide (c ≠ 255)) opt_type_memory =
        [5, 6, 16, 17] := by decide
    rw [hcodes]
    exact or_iff_left (not_included_replicate 256 i)
  have h7 : parse_opt_type none (cstr "7") = (some ((List.replicate 256 0).set 7 1), []) := by
    have h55 : cstr "7" = [55] := rfl
    unfold parse_opt_type
    rw [h55, find_type_keyword_digit 55 [] (by omega)]
    simp only [selector_or_fresh]
    rw [parse_numbers_single _ _ 7 (List.cons_ne_nil _ _) (by decide), if_neg (by omega)]
  have h7i : ∀ i, included ((List.replicate 256 0).set 7 1) i ↔ i = 7 := by
    intro i
    rw [included_set, hlen]
    constructor
    · rintro (⟨h, _⟩ | h)
      · exact h
      · exact absurd h (not_included_replicate 256 i)
    · intro h
      exact Or.inl ⟨h, by omega⟩
  obtain ⟨sel, h, hl, hi⟩ := main [cstr "memory", cstr "7"] (List.cons_ne_nil _ _) (by
    intro t ht
    rcases List.mem_cons.mp ht with rfl | ht
    · exact ⟨_, _, hm⟩
    · rcases List.mem_cons.mp ht with rfl | ht
      · exact ⟨_, _, h7⟩
      · cases ht)
  refine ⟨sel, h, hl, ?_⟩
  intro i
  rw [hi i]
  simp only [List.mem_cons, List.mem_nil_iff, or_false]
  constructor
  · rintro ⟨t, ht, r, e, hp, hinc⟩
    rcases ht with rfl | rfl
    · rw [hm] at hp
      injection hp with hp _
      injection hp with hp
      subst hp
      have := (hmi i).mp hinc
      simp only [List.mem_cons, List.mem_nil_iff, or_false] at this
      omega
    · rw [h7] at hp
      injection hp with hp _
      injection hp with hp
      subst hp
      have := (h7i i).mp hinc
      omega
  · intro hmem
    by_cases h7eq : i = 7
    · exact ⟨cstr "7", Or.inr rfl, _, _, h7, (h7i i).mpr h7eq⟩
    · refine ⟨cstr "memory", Or.inl rfl, _, _, hm, (hmi i).mpr ?_⟩
      simp only [List.mem_cons, List.mem_nil_iff, or_false]
      omega

theorem parse_command_line_types_witness :
    ∃ sel, parse_command_line opt_zero ([cstr "0x20", cstr "slot"].map getopt.t) =
        ⟨0, [], { opt_zero with type := some sel }⟩ ∧ sel.length = 256 ∧
      ∀ i, included sel i ↔
        ∃ t ∈ [cstr "0x20", cstr "slot"], ∃ r e,
          parse_opt_type none t = (some r, e) ∧ included r i :=
  (parse_command_line_types.2 [cstr "0x20", cstr "slot"] (by
    intro t ht
    rcases List.mem_cons.mp ht with rfl | ht
    · exact ⟨(List.replicate 256 0).set 32 1, [], by decide!⟩
    · rcases List.mem_cons.mp ht with rfl | ht
      · exact ⟨set_types opt_type_slot (List.replicate 256 0), [], by decide!⟩
      · cases ht)).2 (by decide)

/-! ## Lemmas on `strtoul` before more text -/

theorem takeWhile_append_stop (f : Nat → Bool) (l rest : CStr) (h : ∀ c ∈ l, f c = true)
    (hrest : ∀ d ∈ rest.head?, f d = false) : (l ++ rest).takeWhile f = l := by
  induction l with
  | nil =>
    cases rest with
    | nil => rfl
    | cons d r => rw [List.nil_append, List.takeWhile_cons, hrest d rfl]; rfl
  | cons a l ih =>
    rw [List.cons_append, List.takeWhile_cons, h a (List.mem_cons_self _ _)]
    simp only [if_true]
    rw [ih (fun c hc => h c (List.mem_cons_of_mem _ hc))]

theorem dropWhile_append_stop (f : Nat → Bool) (l rest : CStr) (h : ∀ c ∈ l, f c = true)
    (hrest : ∀ d ∈ rest.head?, f d = false) : (l ++ rest).dropWhile f = rest := by
  induction l with
  | nil =>
    cases rest with
    | nil => rfl
    | cons d r => rw [List.nil_append, List.dropWhile_cons, hrest d rfl]; rfl
  | cons a l ih =>
    rw [List.cons_append, List.dropWhile_cons, h a (List.mem_cons_self _ _)]
    simp only [if_true]
    exact ih (fun c hc => h c (List.mem_cons_of_mem _ hc))

/-- The conversion of a string that starts with digits of its base and goes on with a byte
that is no such digit: the digits are consumed and `endptr` is left at that byte. -/
theorem strtoul_digits_rest (c : Nat) (s rest : CStr) (b : Nat)
    (hc : isspace c = false) (hminus : c ≠ 45) (hplus : c ≠ 43)
    (hb : number_base 0 (c :: (s ++ rest)) = b)
    (hmark : has_hex_mark (c :: (s ++ rest)) = false)
    (hall : ∀ d ∈ c :: s, is_digit b d = true)
    (hrest : ∀ d ∈ rest.head?, is_digit b d = false) :
    strtoul (c :: (s ++ rest)) 0 = (to_ulong false (digits_value b (c :: s)), rest) := by
  have h1 : (c :: (s ++ rest)).dropWhile isspace = c :: (s ++ rest) := by
    rw [List.dropWhile_cons, hc]; rfl
  have h2 : skip_sign (c :: (s ++ rest)) = c :: (s ++ rest) := by
    unfold skip_sign
    rw [if_neg]
    simp [hminus, hplus]
  have h3 : skip_hex_mark b (c :: (s ++ rest)) = c :: (s ++ rest) := by
    unfold skip_hex_mark
    rw [if_neg]
    simp [hmark]
  have h4 : decide ((c :: (s ++ rest)).head? = some 45) = false := by
    simp [hminus]
  have h5 := takeWhile_append_stop _ (c :: s) rest hall hrest
  have h6 := dropWhile_append_stop _ (c :: s) rest hall hrest
  rw [List.cons_append] at h5 h6
  unfold strtoul
  rw [if_neg (by omega)]
  simp only [h1, h2, hb, h3, h4, h5, h6]
  rw [if_neg (List.cons_ne_nil _ _)]

/-- The conversion of `0x` or `0X`, hexadecimal digits, and then a byte that is none. -/
theorem strtoul_hex_rest (x : Nat) (ds rest : CStr) (hx : x = 120 ∨ x = 88) (hne : ds ≠ [])
    (hall : ∀ d ∈ ds, is_digit 16 d = true)
    (hrest : ∀ d ∈ rest.head?, is_digit 16 d = false) :
    strtoul (48 :: x :: (ds ++ rest)) 0 = (to_ulong false (digits_value 16 ds), rest) := by
  have h5 := takeWhile_append_stop _ ds rest hall hrest
  have h6 := dropWhile_append_stop _ ds rest hall hrest
  obtain ⟨d, ds1, rfl⟩ := List.exists_cons_of_ne_nil hne
  have hd : is_digit 16 d = true := hall d (List.mem_cons_self _ _)
  rw [List.cons_append] at h5 h6 ⊢
  have hm : has_hex_mark (48 :: x :: d :: (ds1 ++ rest)) = true := by
    unfold has_hex_mark
    rcases hx with rfl | rfl <;> simp [hd]
  have h1 : (48 :: x :: d :: (ds1 ++ rest)).dropWhile isspace =
      48 :: x :: d :: (ds1 ++ rest) := by
    rw [List.dropWhile_cons]; rfl
  have h2 : skip_sign (48 :: x :: d :: (ds1 ++ rest)) = 48 :: x :: d :: (ds1 ++ rest) := by
    unfold skip_sign
    rw [if_neg]
    simp
  have hb : number_base 0 (48 :: x :: d :: (ds1 ++ rest)) = 16 := by
    unfold number_base
    simp [hm]
  have h3 : skip_hex_mark 16 (48 :: x :: d :: (ds1 ++ rest)) = d :: (ds1 ++ rest) := by
    unfold skip_hex_mark
    rw [if_pos ⟨rfl, hm⟩]
    rfl
  have h4 : decide ((48 :: x :: d :: (ds1 ++ rest)).head? = some 45) = false := by
    simp
  unfold strtoul
  rw [if_neg (by omega)]
  simp only [h1, h2, hb, h3, h4, h5, h6]
  rw [if_neg (List.cons_ne_nil _ _)]

theorem digits_value_octal (ds : CStr) (h : ∀ c ∈ ds, is_octal_digit c = true) :
    digits_value 8 (48 :: ds) = octal_value ds := by
  unfold digits_value octal_value
  rw [List.foldl_cons]
  have h0 : 0 * 8 + (digit_value 48).getD 0 = 0 := by decide
  rw [h0]
  apply foldl_digits_congr
  intro c hc
  have := h c hc
  unfold is_octal_digit at this
  simp only [Bool.and_eq_true, decide_eq_true_eq] at this
  unfold digit_value
  rw [if_pos (by omega)]
  rfl

theorem is_digit_octal (c : Nat) (h : is_octal_digit c = true) : is_digit 8 c = true := by
  unfold is_octal_digit at h
  simp only [Bool.and_eq_true, decide_eq_true_eq] at h
  unfold is_digit digit_value
  rw [if_pos (by omega)]
  simp only [decide_eq_true_eq]
  omega

theorem is_digit_of_no_value (b d : Nat) (h : digit_value d = none) : is_digit b d = false := by
  unfold is_digit
  rw [h]

/-- The conversion of `0`, octal digits, and then a byte that is no octal digit. -/
theorem strtoul_octal_rest (ds rest : CStr) (hall : ∀ d ∈ ds, is_octal_digit d = true)
    (hrest : ∀ d ∈ rest.head?, is_digit 8 d = false)
    (hx : has_hex_mark (48 :: (ds ++ rest)) = false) :
    strtoul (48 :: (ds ++ rest)) 0 = (to_ulong false (octal_value ds), rest) := by
  have hb : number_base 0 (48 :: (ds ++ rest)) = 8 := by
    unfold number_base
    simp [hx]
  rw [strtoul_digits_rest 48 ds rest 8 (by decide) (by omega) (by omega) hb hx
    (by
      intro d hd
      rcases List.mem_cons.mp hd with rfl | hd
      · decide
      · exact is_digit_octal d (hall d hd))
    hrest, digits_value_octal ds hall]

theorem no_hex_mark_of_head (c : Nat) (l : CStr) (h : c ≠ 48) :
    has_hex_mark (c :: l) = false := by
  unfold has_hex_mark
  split
  · rename_i heq; injection heq with h1 _; exact absurd h1 h
  · rfl

theorem no_hex_mark_zero (l : CStr) (h : ∀ x ∈ l.head?, x ≠ 120 ∧ x ≠ 88) :
    has_hex_mark (48 :: l) = false := by
  unfold has_hex_mark
  split
  · rename_i x d r heq
    injection heq with _ h2
    have := h x (by rw [h2]; rfl)
    simp [this.1, this.2]
  · rfl

/-- What `strtoul` makes of a literal that writes `n`, followed by text that does not
start with a letter or a digit: the value is `n`, or `ULONG_MAX` when `n` does not fit, and
`endptr` is left at that text. -/
theorem strtoul_literal (lit : CStr) (n : Nat) (rest : CStr)
    (hw : writes_number lit n = true) (hrest : ∀ d ∈ rest.head?, digit_value d = none) :
    strtoul (lit ++ rest) 0 = (to_ulong false n, rest) ∧
      ∃ c s, lit = c :: s ∧ 48 ≤ c ∧ c ≤ 57 := by
  have hr : ∀ b, ∀ d ∈ rest.head?, is_digit b d = false :=
    fun b d hd => is_digit_of_no_value b d (hrest d hd)
  have hoct : ∀ ds : CStr, (∀ d ∈ ds, is_octal_digit d = true) →
      has_hex_mark (48 :: (ds ++ rest)) = false := by
    intro ds hall
    apply no_hex_mark_zero
    intro x hx
    cases ds with
    | nil =>
      have := hrest x hx
      constructor <;> rintro rfl <;> exact absurd this (by decide)
    | cons d ds =>
      have hd := hall d (List.mem_cons_self _ _)
      unfold is_octal_digit at hd
      simp only [Bool.and_eq_true, decide_eq_true_eq] at hd
      have hxd : x = d := by
        simp only [List.cons_append, List.head?_cons, Option.mem_def, Option.some.injEq] at hx
        exact hx.symm
      subst hxd
      omega
  unfold writes_number at hw
  simp only [Bool.or_eq_true] at hw
  rcases hw with (hw | hw) | hw
  · unfold writes_decimal at hw
    simp only [Bool.and_eq_true, Bool.or_eq_true, decide_eq_true_eq, List.all_eq_true,
      ne_eq, decide_not, Bool.not_eq_true', decide_eq_false_iff_not] at hw
    obtain ⟨⟨⟨hne, hall⟩, hlead⟩, hval⟩ := hw
    obtain ⟨c, s, rfl⟩ := List.exists_cons_of_ne_nil hne
    have hc := hall c (List.mem_cons_self _ _)
    refine ⟨?_, c, s, rfl, hc⟩
    rw [List.cons_append]
    rcases hlead with hlead | hlead
    · have hc48 : c ≠ 48 := by simpa using hlead
      have hmark := no_hex_mark_of_head c (s ++ rest) hc48
      have hb : number_base 0 (c :: (s ++ rest)) = 10 := by
        unfold number_base
        simp [hmark, hc48]
      rw [strtoul_digits_rest c s rest 10 (by unfold isspace; simp; omega) (by omega)
        (by omega) hb hmark (fun d hd => is_digit_decimal d (hall d hd)) (hr 10),
        digits_value_decimal _ hall, hval]
    · injection hlead with h1 h2
      subst h1; subst h2
      have hn : n = 0 := by rw [← hval]; rfl
      subst hn
      exact strtoul_octal_rest [] rest (by simp) (hr 8) (hoct [] (by simp))
  · unfold writes_hex at hw
    split at hw
    · rename_i x ds
      simp only [Bool.and_eq_true, Bool.or_eq_true, decide_eq_true_eq, List.all_eq_true,
        ne_eq, decide_not, Bool.not_eq_true', decide_eq_false_iff_not] at hw
      obtain ⟨⟨⟨hx, hne⟩, hall⟩, hval⟩ := hw
      refine ⟨?_, 48, x :: ds, rfl, by omega, by omega⟩
      rw [List.cons_append, List.cons_append,
        strtoul_hex_rest x ds rest hx hne (fun d hd => is_digit_hex d (hall d hd)) (hr 16),
        digits_value_hex _ hall, hval]
    · exact absurd hw (by simp)
  · unfold writes_octal at hw
    split at hw
    · rename_i ds
      simp only [Bool.and_eq_true, decide_eq_true_eq, List.all_eq_true] at hw
      obtain ⟨hall, hval⟩ := hw
      refine ⟨?_, 48, ds, rfl, by omega, by omega⟩
      rw [List.cons_append, strtoul_octal_rest ds rest hall (hr 8) (hoct ds hall), hval]
    · exact absurd hw (by simp)

/-- One round of the numeric path: a literal that writes a number up to 255, separators,
and then text that starts with no separator. The entry of the number is set and the loop
goes on with that text. -/
theorem parse_numbers_round (p : Selector) (lit : CStr) (n : Nat) (seps rest : CStr)
    (hw : writes_number lit n = true) (hn : n ≤ 255)
    (hseps : ∀ c ∈ seps, is_separator c = true)
    (hnext : ∀ d ∈ (seps ++ rest).head?, digit_value d = none)
    (hrest : ∀ d ∈ rest.head?, is_separator d = false) :
    parse_numbers p (lit ++ seps ++ rest) = parse_numbers (p.set n 1) rest := by
  obtain ⟨hs, c, s, rfl, hc⟩ := strtoul_literal lit n (seps ++ rest) hw hnext
  rw [to_ulong_of_le n hn] at hs
  rw [List.append_assoc, parse_numbers]
  have hne : c :: s ++ (seps ++ rest) ≠ [] := by simp
  have hnext2 : seps ++ rest ≠ c :: s ++ (seps ++ rest) := by
    intro h
    have := congrArg List.length h
    simp only [List.length_append, List.length_cons] at this
    omega
  simp only [hs, if_neg hne]
  rw [dif_neg hnext2, if_neg (by omega)]
  have hd : (seps ++ rest).dropWhile (fun c => decide (c = 44) || decide (c = 32)) = rest :=
    dropWhile_append_stop _ seps rest hseps hrest
  rw [hd]

/-- The numeric path stops at a literal that writes a number above 255. -/
theorem parse_numbers_too_big (p : Selector) (lit : CStr) (n : Nat) (rest : CStr)
    (hw : writes_number lit n = true) (hn : 255 < n)
    (hnext : ∀ d ∈ rest.head?, digit_value d = none) :
    parse_numbers p (lit ++ rest) =
      (none, [cstr "Invalid type number: " ++ fmt_lu (min n ULONG_MAX)]) := by
  obtain ⟨hs, c, s, rfl, hc⟩ := strtoul_literal lit n rest hw hnext
  rw [parse_numbers]
  have hne : c :: s ++ rest ≠ [] := by simp
  have hnext2 : rest ≠ c :: s ++ rest := by
    intro h
    have := congrArg List.length h
    simp only [List.length_append, List.length_cons] at this
    omega
  simp only [hs, if_neg hne]
  rw [dif_neg hnext2, if_pos (to_ulong_gt n hn), to_ulong_eq_min]

/-- The numeric path stops at text from which no leading number can be parsed. -/
theorem parse_numbers_no_number (p : Selector) (arg : CStr) (hne : arg ≠ [])
    (h : has_leading_number arg = false) :
    parse_numbers p arg =
      (none, (cstr "Invalid type keyword: " ++ arg) :: print_opt_type_list) := by
  rw [parse_numbers]
  simp only [strtoul_no_conversion arg h, if_neg hne, dif_pos]

/-! ## C15: lists of numbers -/

theorem writes_number_head (lit : CStr) (n : Nat) (hw : writes_number lit n = true) :
    ∃ c s, lit = c :: s ∧ 48 ≤ c ∧ c ≤ 57 :=
  (strtoul_literal lit n [] hw (fun d hd => by cases hd)).2

theorem separator_no_value (c : Nat) (h : is_separator c = true) : digit_value c = none := by
  unfold is_separator at h
  simp only [Bool.or_eq_true, decide_eq_true_eq] at h
  rcases h with rfl | rfl <;> rfl

theorem digit_no_separator (c : Nat) (h : 48 ≤ c ∧ c ≤ 57) : is_separator c = false := by
  unfold is_separator
  simp only [Bool.or_eq_false_iff, decide_eq_false_iff_not]
  omega

/-- The token of a list of numbers starts with a decimal digit. -/
theorem number_list_token_head (items : List (Nat × CStr × CStr))
    (h : is_number_list items = true) :
    ∃ c s, number_list_token items = c :: s ∧ 48 ≤ c ∧ c ≤ 57 := by
  cases items with
  | nil => exact absurd h (by simp [is_number_list])
  | cons x rest =>
    obtain ⟨n, lit, seps⟩ := x
    simp only [is_number_list, Bool.and_eq_true] at h
    obtain ⟨c, s, rfl, hc⟩ := writes_number_head lit n h.1.1
    exact ⟨c, s ++ seps ++ number_list_token rest, by simp [number_list_token], hc⟩

/-- The numeric path on the token of a list of numbers up to 255 sets their entries. -/
theorem parse_numbers_list (items : List (Nat × CStr × CStr))
    (h : is_number_list items = true) (hle : ∀ x ∈ items, x.1 ≤ 255) (p : Selector) :
    parse_numbers p (number_list_token items) =
      (some ((items.map (fun x => x.1)).foldl (fun q c => q.set c 1) p), []) := by
  induction items generalizing p with
  | nil => exact absurd h (by simp [is_number_list])
  | cons x rest ih =>
    obtain ⟨n, lit, seps⟩ := x
    simp only [is_number_list, Bool.and_eq_true, Bool.or_eq_true, decide_eq_true_eq,
      List.all_eq_true] at h
    obtain ⟨⟨hw, hseps⟩, hrest⟩ := h
    have hn : n ≤ 255 := hle (n, lit, seps) (List.mem_cons_self _ _)
    simp only [number_list_token, List.map_cons, List.foldl_cons]
    rcases hrest with rfl | ⟨hne, hlist⟩
    · have hnext : ∀ d ∈ (seps ++ number_list_token []).head?, digit_value d = none := by
        intro d hd
        simp only [number_list_token, List.append_nil] at hd
        exact separator_no_value d (hseps d (List.mem_of_mem_head? hd))
      rw [parse_numbers_round p lit n seps _ hw hn hseps hnext
        (fun d hd => by simp [number_list_token] at hd)]
      exact parse_numbers_nil _
    · have hne1 : seps ≠ [] := by simpa using hne
      obtain ⟨s0, seps1, rfl⟩ := List.exists_cons_of_ne_nil hne1
      have hnext : ∀ d ∈ (s0 :: seps1 ++ number_list_token rest).head?,
          digit_value d = none := by
        intro d hd
        simp only [List.cons_append, List.head?_cons, Option.mem_def,
          Option.some.injEq] at hd
        subst hd
        exact separator_no_value _ (hseps _ (List.mem_cons_self _ _))
      obtain ⟨c, s, htok, hc⟩ := number_list_token_head rest hlist
      have hrest2 : ∀ d ∈ (number_list_token rest).head?, is_separator d = false := by
        intro d hd
        rw [htok] at hd
        simp only [List.head?_cons, Option.mem_def, Option.some.injEq] at hd
        subst hd
        exact digit_no_separator _ hc
      rw [parse_numbers_round p lit n _ _ hw hn hseps hnext hrest2]
      exact ih hlist (fun x hx => hle x (List.mem_cons_of_mem _ hx)) _

/-- C15: numeric lists are parsed element by element. For a non-empty list of numbers up
to 255, each written as a decimal, `0x` hexadecimal or `0` octal literal, with one or more
commas and spaces after every literal but the last, which may have some too, the token
they form makes `parse_opt_type` with no existing selector succeed, and the selector
returned has 256 entries and includes exactly the numbers of the list. -/
theorem parse_opt_type_number_list (items : List (Nat × CStr × CStr))
    (h : is_number_list items = true) (hle : ∀ x ∈ items, x.1 ≤ 255) :
    ∃ sel, parse_opt_type none (number_list_token items) = (some sel, []) ∧
      sel.length = 256 ∧ ∀ i, included sel i ↔ i ∈ items.map (fun x => x.1) := by
  obtain ⟨c, s, htok, hc⟩ := number_list_token_head items h
  have hlen : (List.replicate 256 (0 : Nat)).length = 256 := List.length_replicate _ _
  refine ⟨(items.map (fun x => x.1)).foldl (fun q c => q.set c 1) (List.replicate 256 0),
    ?_, ?_, ?_⟩
  · unfold parse_opt_type
    rw [htok, find_type_keyword_digit c s hc, ← htok]
    exact parse_numbers_list items h hle _
  · rw [set_codes_length, hlen]
  · intro i
    rw [included_set_codes, hlen]
    constructor
    · rintro (⟨h1, _⟩ | h1)
      · exact h1
      · exact absurd h1 (not_included_replicate 256 i)
    · intro h1
      refine Or.inl ⟨h1, ?_⟩
      obtain ⟨x, hx, rfl⟩ := List.mem_map.mp h1
      have := hle x hx
      omega

theorem parse_opt_type_number_list_witness :
    is_number_list [(16, cstr "0x10", cstr ", "), (8, cstr "010", cstr " "),
      (16, cstr "16", cstr ","), (255, cstr "255", cstr ", ,")] = true ∧
    ∃ sel, parse_opt_type none (cstr "0x10, 010 16,255, ,") = (some sel, []) ∧
      sel.length = 256 ∧ ∀ i, included sel i ↔ i ∈ [16, 8, 16, 255] :=
  ⟨by decide,
    parse_opt_type_number_list [(16, cstr "0x10", cstr ", "), (8, cstr "010", cstr " "),
      (16, cstr "16", cstr ","), (255, cstr "255", cstr ", ,")] (by decide) (by decide)⟩

/-! ## C18: the numeric path consumes the whole token -/

/-- One round of the loop of the numeric path, with what `strtoul` returns. -/
theorem parse_numbers_step (p : Selector) (arg : CStr) (v : Nat) (next : CStr)
    (hs : strtoul arg 0 = (v, next)) (hne : arg ≠ []) (hnext : next ≠ arg) (hv : v ≤ 255) :
    parse_numbers p arg =
      parse_numbers (p.set v 1) (next.dropWhile (fun c => c = 44 || c = 32)) := by
  rw [parse_numbers]
  simp only [hs, if_neg hne]
  rw [dif_neg hnext, if_neg (by omega)]

theorem is_hex_digit_of_is_digit (d : Nat) (h : is_digit 16 d = true) :
    is_hex_digit d = true := by
  unfold is_hex_digit
  simp only [Bool.or_eq_true, Bool.and_eq_true, decide_eq_true_eq]
  unfold is_digit digit_value at h
  split_ifs at h <;> (simp only [decide_eq_true_eq] at h; omega)

theorem letter_facts (l : Nat) (h : is_letter l = true) :
    isspace l = false ∧ l ≠ 45 ∧ l ≠ 43 ∧ ¬ (48 ≤ l ∧ l ≤ 57) ∧ is_separator l = false ∧
      is_digit 10 l = false ∧ is_digit 8 l = false := by
  unfold is_letter at h
  simp only [Bool.or_eq_true, Bool.and_eq_true, decide_eq_true_eq] at h
  refine ⟨?_, by omega, by omega, by omega, ?_, ?_, ?_⟩
  · unfold isspace
    simp only [Bool.or_eq_false_iff, Bool.and_eq_false_imp, decide_eq_false_iff_not,
      decide_eq_true_eq]
    omega
  · unfold is_separator
    simp only [Bool.or_eq_false_iff, decide_eq_false_iff_not]
    omega
  · unfold is_digit digit_value
    split_ifs <;> first | (simp only [decide_eq_false_iff_not]; omega) | rfl
  · unfold is_digit digit_value
    split_ifs <;> first | (simp only [decide_eq_false_iff_not]; omega) | rfl

/-- Text that starts with a letter has no leading number. -/
theorem no_leading_number_of_letter (l : Nat) (w : CStr) (h : is_letter l = true) :
    has_leading_number (l :: w) = false := by
  obtain ⟨h1, h2, h3, h4, _⟩ := letter_facts l h
  unfold has_leading_number
  rw [List.dropWhile_cons, h1]
  simp only [Bool.false_eq_true, if_false]
  unfold skip_sign
  rw [if_neg (by simp [h2, h3])]
  simp only [Bool.and_eq_false_imp, decide_eq_true_eq, decide_eq_false_iff_not]
  omega

/-- C18: the numeric path consumes the whole token. After a literal that writes a number
up to 255 and the commas and spaces that follow it, the loop goes on with the text that
comes next. So a decimal literal of a number up to 255 followed directly by letters that
do not extend it, as in "4abc", fails with the parse error, which names the letters; and
a decimal literal with a leading zero and a digit 8 or 9 in it is read as two numbers, the
octal number before the first 8 or 9 and the decimal number from that digit on, both set
when they are up to 255: "08" is read as the two numbers 0 and 8. -/
theorem parse_opt_type_whole_token :
    (∀ (p : Selector) (lit : CStr) (n : Nat) (seps rest : CStr),
      writes_number lit n = true → n ≤ 255 → (∀ c ∈ seps, is_separator c = true) →
      (∀ d ∈ (seps ++ rest).head?, digit_value d = none) →
      (∀ d ∈ rest.head?, is_separator d = false) →
      parse_numbers p (lit ++ seps ++ rest) = parse_numbers (p.set n 1) rest) ∧
    (∀ (p : Option Selector) (n : Nat) (lit w : CStr), n ≤ 255 →
      writes_decimal lit n = true → w ≠ [] → (∀ c ∈ w, is_letter c = true) →
      extends_literal lit w = false →
      parse_opt_type p (lit ++ w) =
        (none, (cstr "Invalid type keyword: " ++ w) :: print_opt_type_list)) ∧
    (∀ (p : Option Selector) (ds tail : CStr) (d : Nat),
      (∀ c ∈ ds, is_octal_digit c = true) → (d = 56 ∨ d = 57) →
      (∀ c ∈ tail, 48 ≤ c ∧ c ≤ 57) →
      octal_value ds ≤ 255 → decimal_value (d :: tail) ≤ 255 →
      parse_opt_type p (48 :: (ds ++ d :: tail)) =
          (some (((selector_or_fresh p).set (octal_value ds) 1).set
            (decimal_value (d :: tail)) 1), []) ∧
        ((selector_or_fresh p).length = 256 → ∀ i,
          included (((selector_or_fresh p).set (octal_value ds) 1).set
            (decimal_value (d :: tail)) 1) i ↔
          i = octal_value ds ∨ i = decimal_value (d :: tail) ∨
            included (selector_or_fresh p) i)) ∧
    (∃ sel, parse_opt_type none (cstr "08") = (some sel, []) ∧ sel.length = 256 ∧
      ∀ i, included sel i ↔ i ∈ [0, 8]) := by
  refine ⟨parse_numbers_round, ?_, ?_, ?_⟩
  rotate_left
  · intro p ds tail d hds hd htail ho hm
    have hd8 : is_digit 8 d = false := by rcases hd with rfl | rfl <;> decide
    have hdsep : is_separator d = false := by rcases hd with rfl | rfl <;> decide
    have hx : has_hex_mark (48 :: (ds ++ d :: tail)) = false := by
      apply no_hex_mark_zero
      intro x hx
      cases ds with
      | nil =>
        simp only [List.nil_append, List.head?_cons, Option.mem_def, Option.some.injEq] at hx
        omega
      | cons c ds1 =>
        have hc := hds c (List.mem_cons_self _ _)
        unfold is_octal_digit at hc
        simp only [Bool.and_eq_true, decide_eq_true_eq] at hc
        simp only [List.cons_append, List.head?_cons, Option.mem_def, Option.some.injEq] at hx
        omega
    have hs : strtoul (48 :: (ds ++ d :: tail)) 0 = (octal_value ds, d :: tail) := by
      rw [strtoul_octal_rest ds (d :: tail) hds (fun c hc => by cases hc; exact hd8) hx,
        to_ulong_of_le _ ho]
    have hnext : d :: tail ≠ 48 :: (ds ++ d :: tail) := by
      intro h
      have := congrArg List.length h
      simp only [List.length_append, List.length_cons] at this
      omega
    have hw : writes_number (d :: tail) (decimal_value (d :: tail)) = true := by
      have hall : ∀ c ∈ d :: tail, 48 ≤ c ∧ c ≤ 57 := by
        intro c hc
        rcases List.mem_cons.mp hc with rfl | hc
        · omega
        · exact htail c hc
      have hne48 : d ≠ 48 := by omega
      unfold writes_number writes_decimal
      simp only [Bool.or_eq_true, Bool.and_eq_true, decide_eq_true_eq, List.all_eq_true,
        ne_eq, decide_not, Bool.not_eq_true', decide_eq_false_iff_not]
      refine Or.inl (Or.inl ⟨⟨⟨List.cons_ne_nil _ _, hall⟩, Or.inl ?_⟩, trivial⟩)
      simp [hne48]
    have hdrop : (d :: tail).dropWhile (fun c => decide (c = 44) || decide (c = 32)) =
        d :: tail := by
      rw [List.dropWhile_cons]
      have : (decide (d = 44) || decide (d = 32)) = false := hdsep
      rw [this]
      rfl
    have hround := parse_numbers_round ((selector_or_fresh p).set (octal_value ds) 1)
      (d :: tail) (decimal_value (d :: tail)) [] [] hw hm (by simp) (by simp) (by simp)
    constructor
    · unfold parse_opt_type
      rw [find_type_keyword_digit 48 _ (by omega)]
      simp only []
      rw [parse_numbers_step _ _ _ _ hs (List.cons_ne_nil _ _) hnext ho, hdrop]
      simp only [List.append_nil] at hround
      rw [hround, parse_numbers_nil]
    · intro hlen i
      rw [included_set, included_set, List.length_set, hlen]
      constructor
      · rintro (⟨h, _⟩ | ⟨h, _⟩ | h)
        · exact Or.inr (Or.inl h)
        · exact Or.inl h
        · exact Or.inr (Or.inr h)
      · rintro (h | h | h)
        · exact Or.inr (Or.inl ⟨h, by omega⟩)
        · exact Or.inl ⟨h, by omega⟩
        · exact Or.inr (Or.inr h)
  rotate_left
  · intro p n lit w hn hw hne hletters hext
    obtain ⟨l, w1, rfl⟩ := List.exists_cons_of_ne_nil hne
    have hl := hletters l (List.mem_cons_self _ _)
    obtain ⟨_, _, _, _, hsep, hd10, hd8⟩ := letter_facts l hl
    unfold writes_decimal at hw
    simp only [Bool.and_eq_true, Bool.or_eq_true, decide_eq_true_eq, List.all_eq_true,
      ne_eq, decide_not, Bool.not_eq_true', decide_eq_false_iff_not] at hw
    obtain ⟨⟨⟨hlne, hall⟩, hlead⟩, hval⟩ := hw
    obtain ⟨c, s, rfl⟩ := List.exists_cons_of_ne_nil hlne
    have hc := hall c (List.mem_cons_self _ _)
    have hs : strtoul (c :: s ++ l :: w1) 0 = (n, l :: w1) := by
      rw [List.cons_append]
      rcases hlead with hlead | hlead
      · have hc48 : c ≠ 48 := by simpa using hlead
        have hmark := no_hex_mark_of_head c (s ++ l :: w1) hc48
        have hb : number_base 0 (c :: (s ++ l :: w1)) = 10 := by
          unfold number_base
          simp [hmark, hc48]
        rw [strtoul_digits_rest c s (l :: w1) 10 (by unfold isspace; simp; omega) (by omega)
          (by omega) hb hmark (fun d hd => is_digit_decimal d (hall d hd))
          (fun d hd => by cases hd; exact hd10),
          digits_value_decimal _ hall, hval, to_ulong_of_le n hn]
      · injection hlead with h1 h2
        subst h1; subst h2
        have hn0 : n = 0 := by rw [← hval]; rfl
        subst hn0
        have hx : has_hex_mark (48 :: ([] ++ l :: w1)) = false := by
          unfold extends_literal at hext
          simp only [decide_True, Bool.true_and] at hext
          cases w1 with
          | nil => rfl
          | cons d w2 =>
            simp only [Bool.and_eq_false_imp, Bool.or_eq_true, decide_eq_true_eq] at hext
            unfold has_hex_mark
            simp only [List.nil_append, Bool.and_eq_false_imp, Bool.or_eq_true,
              decide_eq_true_eq]
            intro hxx
            have := hext hxx
            by_contra hdig
            rw [is_hex_digit_of_is_digit d (by simpa using hdig)] at this
            cases this
        have := strtoul_octal_rest [] (l :: w1) (by simp)
          (fun d hd => by cases hd; exact hd8) hx
        simpa [octal_value, to_ulong_of_le] using this
    have hne1 : c :: s ++ l :: w1 ≠ [] := by simp
    have hnext : l :: w1 ≠ c :: s ++ l :: w1 := by
      intro h
      have := congrArg List.length h
      simp only [List.length_append, List.length_cons] at this
      omega
    unfold parse_opt_type
    rw [List.cons_append, find_type_keyword_digit c _ hc, ← List.cons_append]
    simp only []
    rw [parse_numbers_step _ _ n _ hs hne1 hnext hn]
    have hdrop : (l :: w1).dropWhile (fun c => decide (c = 44) || decide (c = 32)) = l :: w1 := by
      rw [List.dropWhile_cons]
      have : (decide (l = 44) || decide (l = 32)) = false := hsep
      rw [this]
      rfl
    rw [hdrop]
    exact parse_numbers_no_number _ _ (List.cons_ne_nil _ _) (no_leading_number_of_letter l w1 hl)
  · have h08 : parse_opt_type none (cstr "08") =
        (some (((List.replicate 256 0).set 0 1).set 8 1), []) := by decide!
    have hlen : (List.replicate 256 (0 : Nat)).length = 256 := List.length_replicate _ _
    refine ⟨_, h08, by rw [List.length_set, List.length_set, hlen], ?_⟩
    intro i
    rw [included_set, included_set, List.length_set, hlen]
    have hz := not_included_replicate 256 i
    simp only [List.mem_cons, List.mem_nil_iff, or_false]
    generalize included (List.replicate 256 0) i = z at hz ⊢
    constructor
    · rintro (⟨h, _⟩ | ⟨h, _⟩ | h)
      · exact Or.inr h
      · exact Or.inl h
      · exact absurd h hz
    · rintro (h | h)
      · exact Or.inr (Or.inl ⟨h, by omega⟩)
      · exact Or.inl ⟨h, by omega⟩

theorem parse_opt_type_whole_token_witness :
    parse_numbers ((List.replicate 256 0).set 3 1) (cstr "4" ++ cstr ", " ++ cstr "7") =
        parse_numbers (((List.replicate 256 0).set 3 1).set 4 1) (cstr "7") ∧
    parse_opt_type none (cstr "4" ++ cstr "abc") =
      (none, (cstr "Invalid type keyword: " ++ cstr "abc") :: print_opt_type_list) ∧
    parse_opt_type none (cstr "0189") =
      (some (((List.replicate 256 0).set 1 1).set 89 1), []) :=
  ⟨parse_opt_type_whole_token.1 _ (cstr "4") 4 (cstr ", ") (cstr "7") (by decide) (by decide)
      (by decide) (by decide) (by decide),
    parse_opt_type_whole_token.2.1 none 4 (cstr "4") (cstr "abc") (by decide) (by decide)
      (by decide) (by decide) (by decide),
    (parse_opt_type_whole_token.2.2.1 none (cstr "1") (cstr "9") 56 (by decide)
      (Or.inl rfl) (by decide) (by decide) (by decide)).1⟩

/-! ## C12: a failing sub-token -/

/-- The numeric path gets through a run of valid sub-tokens and goes on with the text
after it. -/
theorem parse_numbers_run (items : List (Nat × CStr × CStr))
    (h : is_number_run items = true) (rest : CStr)
    (hrest : ∀ d ∈ rest.head?, is_separator d = false) (p : Selector) :
    parse_numbers p (number_list_token items ++ rest) =
      parse_numbers ((items.map (fun x => x.1)).foldl (fun q c => q.set c 1) p) rest := by
  induction items generalizing p with
  | nil => rfl
  | cons x items ih =>
    obtain ⟨n, lit, seps⟩ := x
    simp only [is_number_run, Bool.and_eq_true, decide_eq_true_eq, List.all_eq_true] at h
    obtain ⟨⟨⟨⟨hw, hn⟩, hne⟩, hseps⟩, hrun⟩ := h
    have hne1 : seps ≠ [] := by simpa using hne
    obtain ⟨s0, seps1, rfl⟩ := List.exists_cons_of_ne_nil hne1
    have hnext : ∀ d ∈ (s0 :: seps1 ++ (number_list_token items ++ rest)).head?,
        digit_value d = none := by
      intro d hd
      simp only [List.cons_append, List.head?_cons, Option.mem_def, Option.some.injEq] at hd
      subst hd
      exact separator_no_value _ (hseps _ (List.mem_cons_self _ _))
    have hrest2 : ∀ d ∈ (number_list_token items ++ rest).head?, is_separator d = false := by
      cases items with
      | nil => exact hrest
      | cons y items1 =>
        obtain ⟨m, lit1, seps2⟩ := y
        simp only [is_number_run, Bool.and_eq_true] at hrun
        obtain ⟨c, s, rfl, hc⟩ := writes_number_head lit1 m hrun.1.1.1.1
        intro d hd
        simp only [number_list_token, List.cons_append, List.head?_cons, Option.mem_def,
          Option.some.injEq] at hd
        subst hd
        exact digit_no_separator _ hc
    simp only [number_list_token, List.map_cons, List.foldl_cons]
    rw [List.append_assoc, parse_numbers_round p lit n _ _ hw hn hseps hnext hrest2]
    exact ih hrun _

/-- After a `return -1` on a failing type option, the option state holds no selector. -/
theorem parse_command_line_type_failed (o : opt) (pre : List getopt) (o1 : opt) (t : CStr)
    (rest : List getopt) (hpre : option_loop o pre = .ok o1)
    (ht : (parse_opt_type o1.type t).1 = none) :
    parse_command_line o (pre ++ .t t :: rest) =
      ⟨-1, (parse_opt_type o1.type t).2, { o1 with type := none }⟩ := by
  rw [parse_command_line_append, hpre]
  simp only []
  unfold parse_command_line
  simp [option_loop, ht]

/-- C12 as stated fails where it has the earlier selector kept: after `--type bios` the
option state holds a selector that includes 0 and 13, and after `--type bios --type
1,2,foo` it holds none, `parse_opt_type` having freed it and returned NULL. -/
theorem failed_type_option_drops_selector :
    (∃ s, option_loop opt_zero [.t (cstr "bios")] = .ok { opt_zero with type := some s } ∧
      included s 0 ∧ included s 13) ∧
    (parse_command_line opt_zero [.t (cstr "bios"), .t (cstr "1,2,foo")]).ret = -1 ∧
    (parse_command_line opt_zero [.t (cstr "bios"), .t (cstr "1,2,foo")]).opt.type = none := by
  refine ⟨⟨set_types opt_type_bios (List.replicate 256 0), rfl, by decide, by decide⟩, ?_⟩
  have h := parse_command_line_type_failed opt_zero [.t (cstr "bios")] _ (cstr "1,2,foo") []
    rfl (by decide!)
  exact ⟨by rw [show [getopt.t (cstr "bios"), getopt.t (cstr "1,2,foo")] =
      [getopt.t (cstr "bios")] ++ getopt.t (cstr "1,2,foo") :: [] from rfl, h],
    by rw [show [getopt.t (cstr "bios"), getopt.t (cstr "1,2,foo")] =
      [getopt.t (cstr "bios")] ++ getopt.t (cstr "1,2,foo") :: [] from rfl, h]⟩

/-- C12, amended: a failing sub-token aborts the whole `parse_opt_type` call. For a token
of the numeric path made of a run of valid sub-tokens and then a sub-token from which no
number can be parsed, or one that writes a number above 255, the call fails on every
selector with the parse error or the range error, and returns no selector; "1,2,foo" and
"1,300" both fail. The selector passed in, accumulated by earlier calls, is freed with it:
`parse_command_line` returns -1 in a state whose type selector is NULL. -/
theorem parse_opt_type_aborts :
    (∀ (p : Option Selector) (items : List (Nat × CStr × CStr)) (bad : CStr),
      is_number_run items = true → bad ≠ [] → has_leading_number bad = false →
      (∀ d ∈ bad.head?, is_separator d = false) →
      is_category_keyword (number_list_token items ++ bad) = false →
      parse_opt_type p (number_list_token items ++ bad) =
        (none, (cstr "Invalid type keyword: " ++ bad) :: print_opt_type_list)) ∧
    (∀ (p : Option Selector) (items : List (Nat × CStr × CStr)) (lit : CStr) (n : Nat)
      (rest : CStr), is_number_run items = true → writes_number lit n = true → 255 < n →
      (∀ d ∈ rest.head?, digit_value d = none) →
      parse_opt_type p (number_list_token items ++ (lit ++ rest)) =
        (none, [cstr "Invalid type number: " ++ fmt_lu (min n ULONG_MAX)])) ∧
    (∀ p : Option Selector,
      parse_opt_type p (cstr "1,2,foo") =
        (none, (cstr "Invalid type keyword: foo") :: print_opt_type_list) ∧
      parse_opt_type p (cstr "1,300") = (none, [cstr "Invalid type number: 300"])) ∧
    (∀ (o : opt) (pre : List getopt) (o1 : opt) (t : CStr) (rest : List getopt),
      option_loop o pre = .ok o1 → (parse_opt_type o1.type t).1 = none →
      parse_command_line o (pre ++ .t t :: rest) =
        ⟨-1, (parse_opt_type o1.type t).2, { o1 with type := none }⟩) := by
  have part1 : ∀ (p : Option Selector) (items : List (Nat × CStr × CStr)) (bad : CStr),
      is_number_run items = true → bad ≠ [] → has_leading_number bad = false →
      (∀ d ∈ bad.head?, is_separator d = false) →
      is_category_keyword (number_list_token items ++ bad) = false →
      parse_opt_type p (number_list_token items ++ bad) =
        (none, (cstr "Invalid type keyword: " ++ bad) :: print_opt_type_list) := by
    intro p items bad hrun hne hnum hsep hk
    unfold parse_opt_type
    rw [find_type_keyword_none _ hk]
    simp only []
    rw [parse_numbers_run items hrun bad hsep]
    exact parse_numbers_no_number _ _ hne hnum
  have part2 : ∀ (p : Option Selector) (items : List (Nat × CStr × CStr)) (lit : CStr)
      (n : Nat) (rest : CStr), is_number_run items = true → writes_number lit n = true →
      255 < n → (∀ d ∈ rest.head?, digit_value d = none) →
      parse_opt_type p (number_list_token items ++ (lit ++ rest)) =
        (none, [cstr "Invalid type number: " ++ fmt_lu (min n ULONG_MAX)]) := by
    intro p items lit n rest hrun hw hn hrest
    obtain ⟨c, s, rfl, hc⟩ := writes_number_head lit n hw
    have hhead : ∃ c1 s1, number_list_token items ++ (c :: s ++ rest) = c1 :: s1 ∧
        48 ≤ c1 ∧ c1 ≤ 57 := by
      cases items with
      | nil => exact ⟨c, s ++ rest, rfl, hc⟩
      | cons y items1 =>
        obtain ⟨m, lit1, seps2⟩ := y
        simp only [is_number_run, Bool.and_eq_true] at hrun
        obtain ⟨c1, s1, rfl, hc1⟩ := writes_number_head lit1 m hrun.1.1.1.1
        exact ⟨c1, _, rfl, hc1⟩
    obtain ⟨c1, s1, htok, hc1⟩ := hhead
    unfold parse_opt_type
    rw [htok, find_type_keyword_digit c1 s1 hc1, ← htok]
    simp only []
    rw [parse_numbers_run items hrun _ (fun d hd => by
      simp only [List.cons_append, List.head?_cons, Option.mem_def, Option.some.injEq] at hd
      subst hd
      exact digit_no_separator _ hc)]
    exact parse_numbers_too_big _ _ n rest hw hn hrest
  refine ⟨part1, part2, ?_, parse_command_line_type_failed⟩
  intro p
  constructor
  · exact part1 p [(1, cstr "1", cstr ","), (2, cstr "2", cstr ",")] (cstr "foo")
      (by decide) (by decide) (by decide) (by decide) (by decide)
  · exact part2 p [(1, cstr "1", cstr ",")] (cstr "300") 300 [] (by decide) (by decide)
      (by decide) (by decide)

theorem parse_opt_type_aborts_witness :
    parse_opt_type (some ((List.replicate 256 0).set 9 1))
        (number_list_token [(7, cstr "0x7", cstr " ")] ++ cstr "x9") =
      (none, (cstr "Invalid type keyword: " ++ cstr "x9") :: print_opt_type_list) ∧
    parse_command_line opt_zero ([.t (cstr "slot")] ++ .t (cstr "7 256") :: [.q]) =
      ⟨-1, (parse_opt_type (some (set_types opt_type_slot (List.replicate 256 0)))
          (cstr "7 256")).2, opt_zero⟩ :=
  ⟨parse_opt_type_aborts.1 _ [(7, cstr "0x7", cstr " ")] (cstr "x9") (by decide) (by decide)
      (by decide) (by decide) (by decide),
    parse_opt_type_aborts.2.2.2 opt_zero [.t (cstr "slot")]
      { opt_zero with type := some (set_types opt_type_slot (List.replicate 256 0)) }
      (cstr "7 256") [.q] rfl (by decide!)⟩

/-! ## C19: every write is in bounds -/

/-- The lines a failing numeric path writes. -/
theorem parse_numbers_error (p : Selector) (arg : CStr) :
    ∀ e, parse_numbers p arg = (none, e) →
      (∃ a, e = (cstr "Invalid type keyword: " ++ a) :: print_opt_type_list) ∨
      (∃ v, e = [cstr "Invalid type number: " ++ fmt_lu v]) := by
  induction p, arg using parse_numbers.induct with
  | case1 p =>
    intro e h
    rw [parse_numbers_nil] at h
    injection h with h1 _
    exact absurd h1 (by simp)
  | case2 p arg hne next hnext =>
    intro e h
    rw [parse_numbers] at h
    simp only [if_neg hne] at h
    rw [dif_pos hnext] at h
    injection h with _ h2
    exact Or.inl ⟨arg, h2.symm⟩
  | case3 p arg hne val next hnext hval =>
    intro e h
    rw [parse_numbers] at h
    simp only [if_neg hne] at h
    rw [dif_neg hnext, if_pos hval] at h
    injection h with _ h2
    exact Or.inr ⟨_, h2.symm⟩
  | case4 p arg hne val next hnext hval ih =>
    intro e h
    rw [parse_numbers] at h
    simp only [if_neg hne] at h
    rw [dif_neg hnext, if_neg hval] at h
    exact ih e h

/-- The lines a failing `parse_opt_type` writes. -/
theorem parse_opt_type_error (p : Option Selector) (t : CStr) (e : List CStr)
    (h : parse_opt_type p t = (none, e)) :
    (∃ a, e = (cstr "Invalid type keyword: " ++ a) :: print_opt_type_list) ∨
    (∃ v, e = [cstr "Invalid type number: " ++ fmt_lu v]) := by
  unfold parse_opt_type at h
  cases hf : opt_type_keyword.find? (fun k => decide (strcasecmp t k.keyword = 0)) with
  | some k =>
    rw [hf] at h
    injection h with h1 _
    exact absurd h1 (by simp)
  | none =>
    rw [hf] at h
    exact parse_numbers_error _ _ e h

/-- Whether the numeric path fails, and with which lines, does not depend on the
selector. -/
theorem parse_numbers_error_any (p : Selector) (arg : CStr) :
    ∀ e, parse_numbers p arg = (none, e) → ∀ q, parse_numbers q arg = (none, e) := by
  induction p, arg using parse_numbers.induct with
  | case1 p =>
    intro e h
    rw [parse_numbers_nil] at h
    injection h with h1 _
    exact absurd h1 (by simp)
  | case2 p arg hne next hnext =>
    intro e h q
    rw [parse_numbers] at h ⊢
    simp only [if_neg hne] at h ⊢
    rw [dif_pos hnext] at h ⊢
    exact h
  | case3 p arg hne val next hnext hval =>
    intro e h q
    rw [parse_numbers] at h ⊢
    simp only [if_neg hne] at h ⊢
    rw [dif_neg hnext, if_pos hval] at h ⊢
    exact h
  | case4 p arg hne val next hnext hval ih =>
    intro e h q
    rw [parse_numbers] at h ⊢
    simp only [if_neg hne] at h ⊢
    rw [dif_neg hnext, if_neg hval] at h ⊢
    exact ih e h _

/-- Whether `parse_opt_type` fails, and with which lines, does not depend on the
selector. -/
theorem parse_opt_type_error_any (p : Option Selector) (t : CStr) (e : List CStr)
    (h : parse_opt_type p t = (none, e)) (q : Option Selector) :
    parse_opt_type q t = (none, e) := by
  unfold parse_opt_type at h ⊢
  cases hf : opt_type_keyword.find? (fun k => decide (strcasecmp t k.keyword = 0)) with
  | some k =>
    rw [hf] at h
    injection h with h1 _
    exact absurd h1 (by simp)
  | none =>
    rw [hf] at h
    exact parse_numbers_error_any _ _ e h _

/-- The lines of the mutual exclusion checks start with `Op`, or are empty where there is
no such check. -/
theorem exclusion_message_second (k : Nat) :
    (exclusion_message k).getD 1 0 = 112 ∨ (exclusion_message k).getD 1 0 = 0 := by
  rcases k with _ | _ | _ | _ | _ | _ | k
  all_goals first | exact Or.inl (by decide) | exact Or.inr (by decide) | exact Or.inr rfl

/-- A line whose second byte is `n`, `a`, a space, `t` or `y` is no line of the mutual
exclusion checks. -/
theorem not_exclusion_message (k : Nat) (l : CStr)
    (h : l.getD 1 0 = 110 ∨ l.getD 1 0 = 97 ∨ l.getD 1 0 = 32 ∨ l.getD 1 0 = 116 ∨
      l.getD 1 0 = 121) : exclusion_message k ≠ l := by
  intro heq
  rw [← heq] at h
  rcases exclusion_message_second k with h1 | h1 <;> rw [h1] at h <;> omega

theorem print_opt_string_list_lines :
    ∀ l ∈ print_opt_string_list, l.getD 1 0 = 97 ∨ l.getD 1 0 = 32 := by decide

theorem print_opt_type_list_lines :
    ∀ l ∈ print_opt_type_list, l.getD 1 0 = 97 ∨ l.getD 1 0 = 32 := by decide

/-- No line of the mutual exclusion checks is among the lines `parse_opt_string` writes. -/
theorem parse_opt_string_err_own (o : opt) (t : CStr) (k : Nat) :
    exclusion_message k ∉ (parse_opt_string o t).err := by
  intro hmem
  unfold parse_opt_string at hmem
  split_ifs at hmem
  · rw [List.mem_singleton] at hmem
    exact not_exclusion_message k _ (Or.inl (by decide)) hmem
  · cases hf : opt_string_keyword.find? (fun k => decide (strcasecmp t k.keyword = 0)) with
    | some k0 => rw [hf] at hmem; cases hmem
    | none =>
      rw [hf] at hmem
      rcases List.mem_cons.mp hmem with h | h
      · exact not_exclusion_message k (cstr "Invalid string keyword: " ++ t) (Or.inl rfl) h
      · rcases print_opt_string_list_lines _ h with h1 | h1
        · exact not_exclusion_message k _ (Or.inr (Or.inl h1)) rfl
        · exact not_exclusion_message k _ (Or.inr (Or.inr (Or.inl h1))) rfl

/-- No line of the mutual exclusion checks is among the lines `parse_opt_type` writes. -/
theorem parse_opt_type_err_own (p : Option Selector) (t : CStr) (k : Nat) :
    exclusion_message k ∉ (parse_opt_type p t).2 := by
  intro hmem
  cases hr : (parse_opt_type p t).1 with
  | some r =>
    obtain ⟨he, _⟩ := parse_opt_type_codes p t r (parse_opt_type p t).2 (by rw [← hr])
    rw [he] at hmem
    cases hmem
  | none =>
    rcases parse_opt_type_error p t (parse_opt_type p t).2 (by rw [← hr]) with
      ⟨a, ha⟩ | ⟨v, hv⟩
    · rw [ha] at hmem
      rcases List.mem_cons.mp hmem with h | h
      · exact not_exclusion_message k (cstr "Invalid type keyword: " ++ a) (Or.inl rfl) h
      · rcases print_opt_type_list_lines _ h with h1 | h1
        · exact not_exclusion_message k _ (Or.inr (Or.inl h1)) rfl
        · exact not_exclusion_message k _ (Or.inr (Or.inr (Or.inl h1))) rfl
    · rw [hv, List.mem_singleton] at hmem
      exact not_exclusion_message k (cstr "Invalid type number: " ++ fmt_lu v) (Or.inl rfl) hmem

/-- No line of the mutual exclusion checks is among the lines written by
`switch(optopt)`. -/
theorem missing_argument_own (optopt : Nat) (k : Nat) :
    exclusion_message k ∉ missing_argument optopt := by
  intro hmem
  unfold missing_argument at hmem
  split_ifs at hmem
  · rcases List.mem_cons.mp hmem with h | h
    · exact not_exclusion_message k _ (Or.inr (Or.inr (Or.inr (Or.inl (by decide))))) h
    · rcases print_opt_string_list_lines _ h with h1 | h1
      · exact not_exclusion_message k _ (Or.inr (Or.inl h1)) rfl
      · exact not_exclusion_message k _ (Or.inr (Or.inr (Or.inl h1))) rfl
  · rcases List.mem_cons.mp hmem with h | h
    · exact not_exclusion_message k _ (Or.inr (Or.inr (Or.inr (Or.inr (by decide))))) h
    · rcases print_opt_type_list_lines _ h with h1 | h1
      · exact not_exclusion_message k _ (Or.inr (Or.inl h1)) rfl
      · exact not_exclusion_message k _ (Or.inr (Or.inr (Or.inl h1))) rfl
  · cases hmem

/-- A failing string option: `return -1` with the lines and the state of
`parse_opt_string`. -/
theorem parse_command_line_string_failed (o : opt) (pre : List getopt) (o1 : opt) (t : CStr)
    (rest : List getopt) (hpre : option_loop o pre = .ok o1)
    (hfail : (parse_opt_string o1 t).ret < 0) :
    parse_command_line o (pre ++ .s t :: rest) =
      ⟨-1, (parse_opt_string o1 t).err, (parse_opt_string o1 t).opt⟩ := by
  rw [parse_command_line_append, hpre]
  simp only []
  unfold parse_command_line
  simp only [option_loop]
  rw [if_pos hfail]

/-- C13: option processing is fail-fast. After options that are processed without error,
a string option when a string is already selected, a string option with an unknown
keyword, a type option with a token that `parse_opt_type` rejects, and the return `'?'`
for a missing argument or an unknown option each make `parse_command_line` return -1 at
once: the lines written are those of the failing option alone, with no line of a mutual
exclusion check among them, and the return value, the lines and the option state are the
same whatever options follow. These are the only options whose processing fails. -/
theorem parse_command_line_fail_fast :
    (∀ (o : opt) (pre : List getopt) (o1 : opt) (t : CStr) (rest : List getopt),
      option_loop o pre = .ok o1 → o1.string.isSome = true →
      parse_command_line o (pre ++ .s t :: rest) =
        ⟨-1, [cstr "Only one string can be specified"], o1⟩) ∧
    (∀ (o : opt) (pre : List getopt) (o1 : opt) (t : CStr) (rest : List getopt),
      option_loop o pre = .ok o1 → o1.string = none → is_string_keyword t = false →
      parse_command_line o (pre ++ .s t :: rest) =
        ⟨-1, (cstr "Invalid string keyword: " ++ t) :: print_opt_string_list, o1⟩) ∧
    (∀ (o : opt) (pre : List getopt) (o1 : opt) (t : CStr) (rest : List getopt),
      option_loop o pre = .ok o1 → (parse_opt_type none t).1 = none →
      parse_command_line o (pre ++ .t t :: rest) =
        ⟨-1, (parse_opt_type none t).2, { o1 with type := none }⟩) ∧
    (∀ (o : opt) (pre : List getopt) (o1 : opt) (optopt : Nat) (diag : CStr)
      (rest : List getopt), option_loop o pre = .ok o1 →
      parse_command_line o (pre ++ .unknown optopt diag :: rest) =
        ⟨-1, diag :: missing_argument optopt, o1⟩) ∧
    (∀ (k : Nat) (t : CStr) (optopt : Nat),
      exclusion_message k ∉ [cstr "Only one string can be specified"] ∧
      exclusion_message k ∉ (cstr "Invalid string keyword: " ++ t) :: print_opt_string_list ∧
      exclusion_message k ∉ (parse_opt_type none t).2 ∧
      exclusion_message k ∉ missing_argument optopt) ∧
    (∀ (o1 : opt) (g : getopt) (r : outcome), option_loop o1 [g] = .error r →
      (∃ t, g = .s t ∧ (o1.string.isSome = true ∨ is_string_keyword t = false)) ∨
      (∃ t, g = .t t ∧ (parse_opt_type none t).1 = none) ∨
      (∃ optopt diag, g = .unknown optopt diag)) := by
  have hdup : ∀ (o1 : opt) (t : CStr), o1.string.isSome = true →
      parse_opt_string o1 t = ⟨-1, [cstr "Only one string can be specified"], o1⟩ := by
    intro o1 t hs
    unfold parse_opt_string
    rw [if_pos (Option.isSome_iff_ne_none.mp hs)]
  have hanyone : ∀ (p : Option Selector) (t : CStr), (parse_opt_type none t).1 = none →
      parse_opt_type p t = (none, (parse_opt_type none t).2) := by
    intro p t h
    exact parse_opt_type_error_any none t _ (Prod.ext h rfl) p
  refine ⟨?_, ?_, ?_, ?_, ?_, ?_⟩
  · intro o pre o1 t rest hpre hs
    have h := parse_command_line_string_failed o pre o1 t rest hpre
      (by rw [hdup o1 t hs]; exact (show (-1 : Int) < 0 by decide))
    rw [hdup o1 t hs] at h
    exact h
  · intro o pre o1 t rest hpre hs ht
    have h := parse_command_line_string_failed o pre o1 t rest hpre
      (by rw [parse_opt_string_invalid o1 t hs ht]; exact (show (-1 : Int) < 0 by decide))
    rw [parse_opt_string_invalid o1 t hs ht] at h
    exact h
  · intro o pre o1 t rest hpre ht
    have h1 := hanyone o1.type t ht
    have h := parse_command_line_type_failed o pre o1 t rest hpre (by rw [h1])
    rw [h1] at h
    exact h
  · intro o pre o1 optopt diag rest hpre
    rw [parse_command_line_append, hpre]
    rfl
  · intro k t optopt
    refine ⟨?_, ?_, parse_opt_type_err_own none t k, missing_argument_own optopt k⟩
    · intro hmem
      rw [List.mem_singleton] at hmem
      exact not_exclusion_message k _ (Or.inl (by decide)) hmem
    · intro hmem
      rcases List.mem_cons.mp hmem with h | h
      · exact not_exclusion_message k (cstr "Invalid string keyword: " ++ t) (Or.inl rfl) h
      · rcases print_opt_string_list_lines _ h with h1 | h1
        · exact not_exclusion_message k _ (Or.inr (Or.inl h1)) rfl
        · exact not_exclusion_message k _ (Or.inr (Or.inr (Or.inl h1))) rfl
  · intro o1 g r h
    cases g <;> simp only [option_loop] at h
    case s optarg =>
      split_ifs at h with hneg
      exact Or.inl ⟨optarg, rfl, (parse_opt_string_failed o1 optarg hneg).1⟩
    case t optarg =>
      split_ifs at h with hnone
      refine Or.inr (Or.inl ⟨optarg, rfl, ?_⟩)
      have := parse_opt_type_error_any o1.type optarg (parse_opt_type o1.type optarg).2
        (Prod.ext hnone rfl) none
      rw [this]
    case unknown optopt diag => exact Or.inr (Or.inr ⟨optopt, diag, rfl⟩)
    all_goals cases h

theorem parse_command_line_fail_fast_witness :
    parse_command_line opt_zero
        ([.u, .q] ++ .t (cstr "1,300") :: [.s (cstr "bios-vendor")]) =
      ⟨-1, (parse_opt_type none (cstr "1,300")).2,
        { opt_zero with flags := { opt_zero.flags with dump := true, quiet := true } }⟩ ∧
    parse_command_line opt_zero ([.t (cstr "bios")] ++ .s (cstr "foo") :: [.u]) =
      ⟨-1, (cstr "Invalid string keyword: " ++ cstr "foo") :: print_opt_string_list,
        { opt_zero with type := some (set_types opt_type_bios (List.replicate 256 0)) }⟩ ∧
    parse_command_line opt_zero
        ([.s (cstr "bios-vendor")] ++ .s (cstr "bios-version") :: [.u]) =
      ⟨-1, [cstr "Only one string can be specified"],
        { opt_zero with
          string := some ⟨cstr "bios-vendor", 0, 0x04, none, none⟩,
          flags := { opt_zero.flags with quiet := true } }⟩ ∧
    parse_command_line opt_zero
        ([.u, .q] ++ .unknown 116 (cstr "dmidecode: option requires an argument -- 't'") ::
          [.h]) =
      ⟨-1, cstr "dmidecode: option requires an argument -- 't'" :: missing_argument 116,
        { opt_zero with flags := { opt_zero.flags with dump := true, quiet := true } }⟩ :=
  ⟨parse_command_line_fail_fast.2.2.1 opt_zero [.u, .q] _ (cstr "1,300")
      [.s (cstr "bios-vendor")] rfl (by decide!),
    parse_command_line_fail_fast.2.1 opt_zero [.t (cstr "bios")] _ (cstr "foo") [.u] rfl rfl
      (by decide),
    parse_command_line_fail_fast.1 opt_zero [.s (cstr "bios-vendor")] _ (cstr "bios-version")
      [.u] rfl rfl,
    parse_command_line_fail_fast.2.2.2.1 opt_zero [.u, .q] _ 116
      (cstr "dmidecode: option requires an argument -- 't'") [.h] rfl⟩

end Dmiopt
